import Mathlib

/-!
Verification of the WhatsApp bot framework core against its natural-language
specification.  The definitions below are shallow embeddings of the JavaScript
source: Mongoose `Map`s become association lists (`List (String × _)`), JS
objects with dynamic fields become `JVal`, `null`/`undefined` become explicit
constructors or `Option`, and every fallible operation returns an `Option` or
an explicit result structure.  Each embedded function mirrors one source
function and keeps its name.
-/

namespace WABot

/-- Dynamic JavaScript value, used where the source stores schemaless data
(argument values, admin settings, service settings). -/
inductive JVal where
  | undefined : JVal
  | jsNull : JVal
  | bool (b : Bool) : JVal
  | str (s : String) : JVal
  | int (n : Int) : JVal
  | list (elems : List JVal) : JVal
  | obj (fields : List (String × JVal)) : JVal
deriving Repr

/-- Association-list lookup, mirroring `Map.get` / first matching object key. -/
def alistGet {α : Type} (m : List (String × α)) (k : String) : Option α :=
  match m.find? (fun p => p.1 = k) with
  | some p => some p.2
  | none => none

/-- Association-list update, mirroring `Map.set`: replace the value of the
first entry with the given key, or append a new entry if the key is absent. -/
def alistSet {α : Type} (m : List (String × α)) (k : String) (v : α) :
    List (String × α) :=
  match m with
  | [] => [(k, v)]
  | (k', v') :: rest =>
      if k' = k then (k, v) :: rest else (k', v') :: alistSet rest k v

/-- Association-list deletion, mirroring `Map.delete`: remove the first entry
with the given key. -/
def alistDel {α : Type} (m : List (String × α)) (k : String) :
    List (String × α) :=
  match m with
  | [] => []
  | (k', v') :: rest =>
      if k' = k then rest else (k', v') :: alistDel rest k

/-- JS property access on a dynamic value: defined only for objects, and
`undefined` for every other value (including `undefined` and `null` reached
through optional chaining). -/
def jsGet (v : JVal) (k : String) : JVal :=
  match v with
  | .obj fields => (alistGet fields k).getD .undefined
  | _ => .undefined

/-- JS strict equality test against the literal `false`, as in
`x === false`. -/
def jsIsFalse (v : JVal) : Bool :=
  match v with
  | .bool b => !b
  | _ => false

/-- JS truthiness of a dynamic value (objects and arrays are always truthy;
`undefined`, `null`, `false`, `""` and `0` are falsy). -/
def jsTruthy (v : JVal) : Bool :=
  match v with
  | .undefined => false
  | .jsNull => false
  | .bool b => b
  | .str s => s ≠ ""
  | .int n => n ≠ 0
  | .list _ => true
  | .obj _ => true

/-- JS `String.prototype.trim`: strip leading and trailing whitespace. -/
def jsTrim (s : String) : String :=
  String.mk (((s.data.dropWhile Char.isWhitespace).reverse.dropWhile
    Char.isWhitespace).reverse)

/-- JS `String.prototype.toLowerCase` (ASCII view, which covers every string
compared in the source). -/
def jsToLower (s : String) : String := String.mk (s.data.map Char.toLower)

/-- JS truthiness of an optional string (`undefined`/`null`/`""` are falsy). -/
def strTruthy (s : Option String) : Bool :=
  match s with
  | none => false
  | some s => s ≠ ""

/-! ### Key encoding (`StateManager.encodeKey` / `StateManager.decodeKey`)

The source escapes dots before using a string as a Mongoose map key:

    encodeKey(key) { if (!key) return key; return key.replace(/\./g, '~'); }
    decodeKey(key) { if (!key) return key; return key.replace(/~/g, '.'); }

`String.prototype.replace` with a global single-character pattern is a
character-wise map. -/

/-- Replace every occurrence of character `a` with `b`. -/
def replaceChar (a b : Char) (s : String) : String :=
  ⟨s.data.map (fun c => if c = a then b else c)⟩

/-- `StateManager.encodeKey`: escape dots as tildes (empty string is falsy and
returned unchanged). -/
def encodeKey (key : String) : String :=
  if key = "" then key else replaceChar '.' '~' key

/-- `StateManager.decodeKey`: map tildes back to dots. -/
def decodeKey (key : String) : String :=
  if key = "" then key else replaceChar '~' '.' key

/-! ### Schema catalog types (service loader view)

`ParameterDefinition`, `Syntax`, `CommandDefinition` and `ServiceDefinition`
as consumed by the permission manager, the command parser and the router.
Optional JSON fields are `Option`s; object mappings keep their declaration
order as association lists. -/

/-- A parameter definition inside a command syntax. -/
structure ParamDef where
  ptype : String
  isList : Bool := false
  optional : Bool := false
  default : Option JVal := none
  min : Option Nat := none
  max : Option Nat := none
deriving Repr

/-- One command syntax: an `allowedRoles` set (absent fields stay absent) and
an ordered parameter mapping. -/
structure SyntaxDef where
  allowedRoles : Option (List String) := none
  parameters : List (String × ParamDef) := []
deriving Repr

/-- A command definition.  `syntaxes` is the ordered syntax list;
`syntaxParameters` models the legacy `commandDef.syntax?.parameters` fallback
path; `interactive` is the JS `interactive !== false` reading of the field. -/
structure CommandDef where
  syntaxes : Option (List SyntaxDef) := none
  allowedRoles : Option (List String) := none
  syntaxParameters : Option (List (String × ParamDef)) := none
  interactive : Bool := true
deriving Repr

/-- The effective syntax list used throughout the source:
`commandDef.syntaxes || [{ allowedRoles: ['admin'], parameters: commandDef.syntax?.parameters || {} }]`.
(`PermissionManager.getBestMatchingSyntax` uses exactly this default; the
router and parser use the same shape with no `allowedRoles` default, which
never matters because only `parameters` is read there.) -/
def effectiveSyntaxes (cd : CommandDef) : List SyntaxDef :=
  match cd.syntaxes with
  | some l => l
  | none => [{ allowedRoles := some ["admin"],
               parameters := cd.syntaxParameters.getD [] }]

/-- Does one syntax admit the user's roles?  Mirrors the loop body of
`PermissionManager.getBestMatchingSyntax`: the syntax's `allowedRoles`
(defaulting to `['admin']`) contains the wildcard `*`, or contains one of the
user's roles. -/
def syntaxAdmits (userRoles : List String) (s : SyntaxDef) : Bool :=
  let allowed := s.allowedRoles.getD ["admin"]
  allowed.contains "*" || userRoles.any (fun r => allowed.contains r)

/-- The indexed scan of `PermissionManager.getBestMatchingSyntax`: return the
first syntax (with its index, counting from `i`) that admits the roles. -/
def findMatchingSyntaxFrom (userRoles : List String) (i : Nat) :
    List SyntaxDef → Option (Nat × SyntaxDef)
  | [] => none
  | s :: rest =>
      if syntaxAdmits userRoles s then some (i, s)
      else findMatchingSyntaxFrom userRoles (i + 1) rest

/-- `PermissionManager.getBestMatchingSyntax`: iterate the syntaxes in
declaration order and return the first match with its index, or `none`. -/
def getBestMatchingSyntax (userRoles : List String) (cd : CommandDef) :
    Option (Nat × SyntaxDef) :=
  findMatchingSyntaxFrom userRoles 0 (effectiveSyntaxes cd)

/-! ### Blacklists (`PermissionManager.checkBlacklist`)

A blacklist entry scopes a user-id deny rule by optional group / service /
command sets (arrays in JS, so a missing field is `none`). -/

/-- A blacklist entry. -/
structure BlacklistEntry where
  userId : String
  groups : Option (List String) := none
  services : Option (List String) := none
  commands : Option (List String) := none
deriving Repr, DecidableEq

/-- One iteration of the `checkBlacklist` loop: does `entry` match the given
caller?  `chatId`, `service` and `command` are JS values that may be
`null`/`undefined` (`none`) or empty (falsy): each scope test is only applied
when both the argument and the entry field are truthy, exactly as in

    if (chatId && entry.groups) { ... }
    if (service && entry.services) { ... }
    if (command && entry.commands) { ... } -/
def entryMatches (userId : String) (chatId service command : Option String)
    (entry : BlacklistEntry) : Bool :=
  (entry.userId = userId : Bool) &&
  (if strTruthy chatId && entry.groups.isSome then
    (entry.groups.getD []).contains "*" ||
      (entry.groups.getD []).contains (chatId.getD "")
   else true) &&
  (if strTruthy service && entry.services.isSome then
    (entry.services.getD []).contains "*" ||
      (entry.services.getD []).contains (service.getD "")
   else true) &&
  (if strTruthy command && entry.commands.isSome then
    (entry.commands.getD []).contains "*" ||
      (entry.commands.getD []).contains (command.getD "")
   else true)

/-- `PermissionManager.checkBlacklist`: scan the entries in order; any
matching entry denies (returns `true`). -/
def checkBlacklist (blacklist : List BlacklistEntry) (userId : String)
    (chatId service command : Option String) : Bool :=
  blacklist.any (entryMatches userId chatId service command)

/-! ### Per-chat service instances and group-participant events

A `ServiceInstance` (one per installed service per chat) holds the role map
(`Map` from role name to user-id list), the service settings and the storage
map.  `Bot.handleGroupParticipantEvent` dispatches a `group.participants`
webhook to `StateManager.addMemberToServices` / `removeMemberFromServices`,
which loop over all installed services of the event's chat. -/

/-- A service instance installed in a chat. -/
structure ServiceInstance where
  roles : List (String × List String)
  serviceSettings : List (String × JVal) := []
  storage : List (String × List JVal) := []
deriving Repr

/-- The user list of one role (missing role reads as `[]`, as in
`service.roles.get(role) || []`). -/
def roleUsers (svc : ServiceInstance) (role : String) : List String :=
  (alistGet svc.roles role).getD []

/-- Body of the `StateManager.addMemberToServices` loop for one service:
append the user to the `admin` or `member` role list unless already
present. -/
def addMemberSvc (svc : ServiceInstance) (userId : String) (isAdmin : Bool) :
    ServiceInstance :=
  let role := if isAdmin then "admin" else "member"
  let ru := roleUsers svc role
  if userId ∈ ru then svc
  else { svc with roles := alistSet svc.roles role (ru ++ [userId]) }

/-- `StateManager.addMemberToServices`: apply the body to every installed
service of the chat. -/
def addMemberToServices (services : List (String × ServiceInstance))
    (userId : String) (isAdmin : Bool) : List (String × ServiceInstance) :=
  services.map (fun p => (p.1, addMemberSvc p.2 userId isAdmin))

/-- Body of the `StateManager.removeMemberFromServices` loop for one service:
`indexOf` + `splice` removes the first occurrence of the user from every role
list. -/
def removeMemberSvc (svc : ServiceInstance) (userId : String) :
    ServiceInstance :=
  { svc with roles := svc.roles.map (fun ru => (ru.1, ru.2.erase userId)) }

/-- `StateManager.removeMemberFromServices`. -/
def removeMemberFromServices (services : List (String × ServiceInstance))
    (userId : String) : List (String × ServiceInstance) :=
  services.map (fun p => (p.1, removeMemberSvc p.2 userId))

/-- `Bot.handleGroupParticipantEvent`, restricted to the services map of the
event's chat (the surrounding guards return unhandled without mutating state
when `chat_id` is missing or `jids` is empty; the per-jid guard skips falsy
ids, modelled by the empty-string test).  `join` and `demote` add to
`member`, `promote` adds to `admin`, `leave` removes from every role list;
unknown actions are ignored. -/
def handleGroupParticipantEvent (services : List (String × ServiceInstance))
    (action : String) (jids : List String) : List (String × ServiceInstance) :=
  jids.foldl (fun acc userId =>
    if userId = "" then acc
    else if action = "join" then addMemberToServices acc userId false
    else if action = "leave" then removeMemberFromServices acc userId
    else if action = "promote" then addMemberToServices acc userId true
    else if action = "demote" then addMemberToServices acc userId false
    else acc) services

/-- Concrete chat used for the C3 counterexample: one installed service with
`a` as admin and `b` as member (the state scenario 6 of the spec sets up). -/
def exampleServicesC3 : List (String × ServiceInstance) :=
  [("s", { roles := [("admin", ["a"]), ("member", ["b"])] })]

/-! ### Type parser list handling (`TypeParser.parseList`, richer variant)

`TypeParser.parse` routes every `isList` parameter to `parseList`, which
splits the raw token on commas (honouring backslash escapes), expands
numeric `N-M` range tokens, parses the remaining items, deduplicates
preserving first occurrence, and then checks the `min`/`max` bounds.  The
embedding below is specialised to the base type `int` (the claim's type);
the range branch fires exactly when the type is `int`, `float` or
`number`. -/

/-- The character loop of `TypeParser.splitList`: split on `,` with `\`
escaping the next character; a final push adds the trailing item. -/
def splitListAux : List Char → Bool → List Char → List (List Char)
  | [], _, current => [current]
  | c :: cs, escaped, current =>
    if escaped then splitListAux cs false (current ++ [c])
    else if c = '\\' then splitListAux cs true current
    else if c = ',' then current :: splitListAux cs false []
    else splitListAux cs false (current ++ [c])

/-- `TypeParser.splitList`. -/
def splitList (value : String) : List String :=
  (splitListAux value.data false []).map (fun l => String.mk l)

/-- Value of a decimal digit run, as `parseInt(run, 10)` computes it. -/
def digitsToNat (l : List Char) : Nat :=
  l.foldl (fun acc c => acc * 10 + (c.toNat - '0'.toNat)) 0

/-- The range-token test `/^(\d+)\s*-\s*(\d+)$/` of `parseList`: digits,
optional whitespace, a dash, optional whitespace, digits; returns the two
captured numbers. -/
def matchRangeToken (s : String) : Option (Nat × Nat) :=
  let sp1 := s.data.span (fun c => c.isDigit)
  if sp1.1 = [] then none
  else
    match sp1.2.dropWhile (fun c => c.isWhitespace) with
    | '-' :: rest3 =>
      let sp2 := (rest3.dropWhile (fun c => c.isWhitespace)).span
        (fun c => c.isDigit)
      if sp2.1 = [] ∨ sp2.2 ≠ [] then none
      else some (digitsToNat sp1.1, digitsToNat sp2.1)
    | _ => none

/-- The inclusive range loop of `parseList`: ascending when
`start <= end`, descending otherwise. -/
def expandRange (start stop : Nat) : List Int :=
  if start ≤ stop then
    (List.range (stop - start + 1)).map (fun i => (start : Int) + i)
  else
    (List.range (start - stop + 1)).map (fun i => (start : Int) - i)

/-- `Number(value)` followed by the `Number.isInteger` check, as
`TypeParser.parseInt` performs it, modelled for (optionally negated) decimal
integer literals — the only shapes that reach it through `parseList`, whose
loop has already trimmed the item and skipped empty ones. -/
def jsIntOfString (s : String) : Option Int :=
  match s.data with
  | [] => none
  | '-' :: rest =>
      if rest ≠ [] ∧ rest.all (fun c => c.isDigit) then
        some (-(digitsToNat rest : Int))
      else none
  | l => if l.all (fun c => c.isDigit) then some (digitsToNat l) else none

/-- `TypeParser.parseInt` on an already-trimmed string. -/
def typeParserInt (s : String) : Option Int := jsIntOfString (jsTrim s)

/-- The item loop of `parseList` for base type `int`: skip empty trimmed
items, expand range tokens, parse the rest as integers; any item failure
fails the whole list. -/
def parseListIntItems : List String → Except String (List Int)
  | [] => .ok []
  | item :: rest =>
    let trimmed := jsTrim item
    if trimmed = "" then parseListIntItems rest
    else
      match matchRangeToken trimmed with
      | some (a, b) =>
        match parseListIntItems rest with
        | .ok tail => .ok (expandRange a b ++ tail)
        | .error e => .error e
      | none =>
        match typeParserInt trimmed with
        | some n =>
          match parseListIntItems rest with
          | .ok tail => .ok (n :: tail)
          | .error e => .error e
        | none => .error "Invalid list item: Must be an integer"

/-- First-occurrence deduplication, as `[...new Set(results)]` produces it
(JS `Set` preserves insertion order). -/
def dedupFirstAux (seen : List Int) : List Int → List Int
  | [] => []
  | x :: xs =>
    if x ∈ seen then dedupFirstAux seen xs
    else x :: dedupFirstAux (x :: seen) xs

/-- First-occurrence deduplication. -/
def dedupFirst (l : List Int) : List Int := dedupFirstAux [] l

/-- `TypeParser.parseList` for base type `int`: split, expand, parse,
deduplicate, then check `min` (default 0) and `max` (default absent). -/
def parseListInt (value : String) (pmin pmax : Option Nat) :
    Except String (List Int) :=
  match parseListIntItems (splitList value) with
  | .error e => .error e
  | .ok results =>
    let unique := dedupFirst results
    if unique.length < pmin.getD 0 then
      .error "List must have at least the minimum number of items"
    else
      match pmax with
      | some m =>
          if unique.length > m then
            .error "List must have at most the maximum number of items"
          else .ok unique
      | none => .ok unique

/-! ### Argument binding (`CommandParser.parseArgumentsByDefinition`)

The binder walks the ordered parameter list, consuming one token per
parameter (a trailing `string`/`Arguments` parameter consumes the joined
remainder).  It is parameterised by the type parser (`this.typeParser.parse`
in the source), modelled as a function returning `some value` on success and
`none` on failure. -/

/-- `parts.slice(i).join(' ')`. -/
def joinSpace : List String → String
  | [] => ""
  | [s] => s
  | s :: rest => s ++ " " ++ joinSpace rest

/-- `CommandParser.parseArgumentsByDefinition`.  For each parameter: when the
tokens are exhausted, bind the default, `null` for optionals, or leave the
argument undefined (absent); a last parameter of type `string`/`Arguments`
consumes the joined remainder; otherwise consume one token.  Every consumed
token is bound to the parsed value on success and to the raw token string on
type-parser failure — never to an error. -/
def parseArgumentsByDefinition (tp : String → String → ParamDef → Option JVal) :
    List String → List (String × ParamDef) → List (String × JVal)
  | _, [] => []
  | [], (name, d) :: rest =>
    (match d.default with
     | some v => [(name, v)]
     | none => if d.optional then [(name, JVal.jsNull)] else []) ++
    parseArgumentsByDefinition tp [] rest
  | t :: ts, (name, d) :: rest =>
    if rest.isEmpty ∧ (d.ptype = "string" ∨ d.ptype = "Arguments") then
      [(name, (tp (joinSpace (t :: ts)) d.ptype d).getD
          (JVal.str (joinSpace (t :: ts))))]
    else
      (name, (tp t d.ptype d).getD (JVal.str t)) ::
        parseArgumentsByDefinition tp ts rest

/-- The raw string the binder hands to the type parser for a given parameter:
the single consumed token, or the joined remainder for a trailing
`string`/`Arguments` parameter; `none` when the parameter consumes nothing. -/
def consumedTokenFor : List String → List (String × ParamDef) → String →
    Option String
  | _, [], _ => none
  | [], _ :: _, _ => none
  | t :: ts, (name, d) :: rest, q =>
    if rest.isEmpty ∧ (d.ptype = "string" ∨ d.ptype = "Arguments") then
      if q = name then some (joinSpace (t :: ts)) else none
    else
      if q = name then some t else consumedTokenFor ts rest q

/-! ### Session manager (`SessionManager`)

Sessions live in one Mongoose `Map` keyed by
`chatId|userId|service|command` (dots escaped).  `handleResponse` drives the
multi-turn state machine: fetch the active session for `(chatId, userId)`
(lazily deleting expired ones), then interpret the message as `cancel`,
`skip`, or a value. -/

/-- A stored interactive session (`SessionManager.createSession` shape;
timestamps are wall-clock numbers). -/
structure Session where
  key : String
  chatId : String
  userId : String
  service : Option String := none
  command : String
  stype : String := "service"
  syntaxIndex : Nat := 0
  collectedArgs : List (String × JVal) := []
  pendingArgs : List String := []
  currentArgIndex : Nat := 0
  expiresAt : Nat
deriving Repr

/-- `this.sessionTimeout = 5 * 60 * 1000`. -/
def sessionTimeout : Nat := 5 * 60 * 1000

/-- `SessionManager.getSessionKey`: dot-escaped chat and user ids joined with
the service (`'_'` when falsy) and command. -/
def getSessionKey (chatId userId : String) (service : Option String)
    (command : String) : String :=
  replaceChar '.' '~' chatId ++ "|" ++ replaceChar '.' '~' userId ++ "|" ++
    (if strTruthy service then service.getD "" else "_") ++ "|" ++ command

/-- `SessionManager.getCurrentPendingArg`. -/
def getCurrentPendingArg (s : Session) : Option String :=
  if s.pendingArgs.length ≤ s.currentArgIndex then none
  else s.pendingArgs.get? s.currentArgIndex

/-- `SessionManager.isSessionComplete`. -/
def isSessionComplete (s : Session) : Bool :=
  s.pendingArgs.length ≤ s.currentArgIndex

/-- `SessionManager.getActiveSession`: scan the session map in order; delete
expired sessions of this `(chatId, userId)` pair as they are encountered;
return the first live one.  Returns the session (if any) and the resulting
store. -/
def getActiveSession (store : List (String × Session))
    (chatId userId : String) (now : Nat) :
    Option Session × List (String × Session) :=
  match store with
  | [] => (none, [])
  | (k, s) :: rest =>
    if s.chatId = chatId ∧ s.userId = userId then
      if s.expiresAt < now then getActiveSession rest chatId userId now
      else (some s, (k, s) :: rest)
    else
      let r := getActiveSession rest chatId userId now
      (r.1, (k, s) :: r.2)

/-- `SessionManager.updateSession`: store the argument value, advance the
index, refresh the expiry, and save. -/
def updateSession (store : List (String × Session)) (key argName : String)
    (argValue : JVal) (now : Nat) :
    Option Session × List (String × Session) :=
  match alistGet store key with
  | none => (none, store)
  | some s =>
    let u := { s with
      collectedArgs := alistSet s.collectedArgs argName argValue,
      currentArgIndex := s.currentArgIndex + 1,
      expiresAt := now + sessionTimeout }
    (some u, alistSet store key u)

/-- The session-manager actions reported to the router. -/
inductive SessionAction where
  | noSession : SessionAction
  | cancelled : SessionAction
  | skipped : SessionAction
  | continued : SessionAction
  | complete : SessionAction
deriving Repr, DecidableEq

/-- The result record of `SessionManager.handleResponse`. -/
structure SessionResult where
  action : SessionAction
  session : Option Session := none
  argName : Option String := none
  argValue : Option JVal := none
deriving Repr

/-- The trailing "Regular value input" block of
`SessionManager.handleResponse` (also reached when `skip` arrives with no
pending argument): no pending argument completes and deletes the session;
otherwise the trimmed message is stored verbatim. -/
def sessionRegularInput (s : Session) (store : List (String × Session))
    (message : String) (now : Nat) :
    SessionResult × List (String × Session) :=
  match getCurrentPendingArg s with
  | none => ({ action := .complete, session := some s }, alistDel store s.key)
  | some currentArg =>
    let us := updateSession store s.key currentArg
      (JVal.str (jsTrim message)) now
    match us.1 with
    | some u =>
      if isSessionComplete u then
        ({ action := .complete, session := some u }, alistDel us.2 s.key)
      else
        ({ action := .continued, session := some u,
           argName := some currentArg,
           argValue := some (JVal.str (jsTrim message)) }, us.2)
    | none => ({ action := .noSession }, us.2)

/-- The with-session body of `SessionManager.handleResponse` (split out of
the dispatch below for modular proofs).  Note: the `skip` branch stores
`null` for the current pending argument and advances unconditionally — it
never consults the parameter definition's `optional` flag. -/
def handleResponseBody (s : Session) (store1 : List (String × Session))
    (message : String) (now : Nat) :
    SessionResult × List (String × Session) :=
  let trimmedMessage := jsToLower (jsTrim message)
  if trimmedMessage = "cancel" then
    ({ action := .cancelled, session := some s }, alistDel store1 s.key)
  else if trimmedMessage = "skip" then
    match getCurrentPendingArg s with
    | some currentArg =>
      let us := updateSession store1 s.key currentArg JVal.jsNull now
      (match us.1 with
       | some u =>
         if isSessionComplete u then
           ({ action := .complete, session := some u }, alistDel us.2 s.key)
         else
           ({ action := .skipped, session := some u,
              argName := some currentArg }, us.2)
       | none => ({ action := .noSession }, us.2))
    | none => sessionRegularInput s store1 message now
  else sessionRegularInput s store1 message now

/-- `SessionManager.handleResponse`: fetch the pair's active session, then
interpret the message. -/
def handleResponse (message : String) (chatId userId : String) (now : Nat)
    (store : List (String × Session)) :
    SessionResult × List (String × Session) :=
  match getActiveSession store chatId userId now with
  | (none, store1) => ({ action := .noSession }, store1)
  | (some s, store1) => handleResponseBody s store1 message now

/-- Concrete required parameter for the C5 counterexample: the session's
pending argument `amount` is declared `int`, not optional and without a
default. -/
def exampleAmountDef : ParamDef := { ptype := "int" }

/-- Concrete session awaiting the required `amount` argument. -/
def exampleSessionC5 : Session :=
  { key := "g1@g~us|u1@s~whatsapp~net|exp|add", chatId := "g1@g.us",
    userId := "u1@s.whatsapp.net", service := some "exp", command := "add",
    pendingArgs := ["amount"], expiresAt := sessionTimeout }

/-! ### Bot state and the permission manager (`PermissionManager.canExecute`)

The chat map is keyed by the encoded chat id.  `adminSettings` is kept as a
dynamic object (`setAdminSetting` can write arbitrary nested keys under it),
exactly the shape `ensureChat` creates:
`{disableServicePrefix, isEnabled, argsOnlyCommand, replyOnParsingError,
blackList}`. -/

/-- Per-chat state (`ensureChat` shape). -/
structure ChatData where
  chatType : String := "group"
  adminSettings : List (String × JVal) := []
  displayNames : List (String × String) := []
  services : List (String × ServiceInstance) := []
deriving Repr

/-- The aggregate bot state document. -/
structure BotState where
  rootUsers : List String := []
  rootSettings : List (String × JVal) := []
  chats : List (String × ChatData) := []
deriving Repr

/-- Read a JS string value. -/
def asString (v : JVal) : Option String :=
  match v with
  | .str s => some s
  | _ => none

/-- Read a JS array of strings (`none` when the field is not an array). -/
def jsStrList (v : JVal) : Option (List String) :=
  match v with
  | .list es => some (es.filterMap asString)
  | _ => none

/-- View a stored blacklist-entry object as a `BlacklistEntry`. -/
def decodeBlacklistEntry (v : JVal) : BlacklistEntry :=
  { userId := (asString (jsGet v "userId")).getD "",
    groups := jsStrList (jsGet v "groups"),
    services := jsStrList (jsGet v "services"),
    commands := jsStrList (jsGet v "commands") }

/-- View a stored blacklist array (`x || []` for a missing field). -/
def decodeBlacklist (v : JVal) : List BlacklistEntry :=
  match v with
  | .list es => es.map decodeBlacklistEntry
  | _ => []

/-- `StateManager.isRootUser`. -/
def isRootUser (st : BotState) (userId : String) : Bool :=
  st.rootUsers.contains userId

/-- `StateManager.getRootBlacklist`: `state.rootSettings.blackList || []`. -/
def getRootBlacklist (st : BotState) : List BlacklistEntry :=
  decodeBlacklist ((alistGet st.rootSettings "blackList").getD .undefined)

/-- `this.state.chats.get(this.encodeKey(chatId))`. -/
def getChatData (st : BotState) (chatId : String) : Option ChatData :=
  alistGet st.chats (encodeKey chatId)

/-- `StateManager.getChatSettings`: returns `chat?.adminSettings` — the
admin-settings object itself, or `undefined` when the chat is unknown. -/
def getChatSettings (st : BotState) (chatId : String) :
    Option (List (String × JVal)) :=
  (getChatData st chatId).map (fun c => c.adminSettings)

/-- `StateManager.getGroupBlacklist`: `chat?.adminSettings?.blackList || []`. -/
def getGroupBlacklist (st : BotState) (chatId : String) : List BlacklistEntry :=
  match getChatSettings st chatId with
  | some as => decodeBlacklist ((alistGet as "blackList").getD .undefined)
  | none => []

/-- `StateManager.isServiceInstalled`. -/
def isServiceInstalled (st : BotState) (chatId : String)
    (service : Option String) : Bool :=
  match getChatData st chatId, service with
  | some c, some svc => (alistGet c.services svc).isSome
  | _, _ => false

/-- `StateManager.getServiceSettings` (`{}` when service or settings are
missing). -/
def getServiceSettings (st : BotState) (chatId : String)
    (service : Option String) : List (String × JVal) :=
  match getChatData st chatId, service with
  | some c, some svc =>
    match alistGet c.services svc with
    | some si => si.serviceSettings
    | none => []
  | _, _ => []

/-- `StateManager.getUserServiceRoles`: every role whose user list contains
the user or the wildcard `*`. -/
def getUserServiceRoles (st : BotState) (userId chatId : String)
    (service : Option String) : List String :=
  match getChatData st chatId, service with
  | some c, some svc =>
    match alistGet c.services svc with
    | some si =>
      si.roles.filterMap (fun ru =>
        if ru.2.contains userId || ru.2.contains "*" then some ru.1 else none)
    | none => []
  | _, _ => []

/-- `StateManager.userHasAdminRole`: some installed service has the user (or
`*`) in its `admin` role. -/
def userHasAdminRole (st : BotState) (userId chatId : String) : Bool :=
  match getChatData st chatId with
  | some c =>
    c.services.any (fun p =>
      match alistGet p.2.roles "admin" with
      | some users => users.contains userId || users.contains "*"
      | none => false)
  | none => false

/-- A service definition as the loader serves it. -/
structure ServiceDef where
  allowInPrivateChat : Bool := false
  oneCmdPerMsg : Bool := false
  commands : List (String × CommandDef) := []
deriving Repr

/-- The loader's service catalog (`serviceLoader.getService`). -/
def getServiceDefinition (catalog : List (String × ServiceDef))
    (service : Option String) : Option ServiceDef :=
  service.bind (fun svc => alistGet catalog svc)

/-- The context fields `canExecute` destructures. -/
structure PermContext where
  userId : String
  chatId : String := ""
  isGroup : Bool := false
deriving Repr

/-- The parsed-command fields `canExecute` destructures. -/
structure ParsedRef where
  ptype : String
  service : Option String := none
  command : Option String := none
deriving Repr

/-- `canExecute`'s result record. -/
structure PermResult where
  allowed : Bool
  reason : Option String := none
  roles : Option (List String) := none
  syntaxIndex : Option Nat := none
deriving Repr

/-- `PermissionManager.checkRootPermission`. -/
def checkRootPermission (st : BotState) (userId : String) : PermResult :=
  if !(isRootUser st userId) then
    { allowed := false, reason := some "Root permission required" }
  else { allowed := true }

/-- `PermissionManager.checkAdminPermission`. -/
def checkAdminPermission (st : BotState) (ctx : PermContext) : PermResult :=
  if isRootUser st ctx.userId then { allowed := true }
  else if !ctx.isGroup then
    { allowed := false, reason := some "Admin commands only available in groups" }
  else if userHasAdminRole st ctx.userId ctx.chatId then { allowed := true }
  else { allowed := false, reason := some "Admin permission required" }

/-- `Set.add` order: append only when absent. -/
def addUnique (l : List String) (x : String) : List String :=
  if l.contains x then l else l ++ [x]

/-- `PermissionManager.getUserRoles`: `root` and `admin` for root users, then
the service roles, deduplicated in insertion order (a JS `Set`). -/
def getUserRoles (st : BotState) (userId chatId : String)
    (service : Option String) : List String :=
  (getUserServiceRoles st userId chatId service).foldl addUnique
    (if isRootUser st userId then ["root", "admin"] else [])

/-- `PermissionManager.checkServicePermission` (reason texts abbreviate the
interpolated source messages). -/
def checkServicePermission (catalog : List (String × ServiceDef))
    (st : BotState) (ctx : PermContext) (p : ParsedRef) : PermResult :=
  if !(isServiceInstalled st ctx.chatId p.service) then
    { allowed := false, reason := some "Service is not installed in this chat" }
  else
    let serviceSettings := getServiceSettings st ctx.chatId p.service
    if jsIsFalse ((alistGet serviceSettings "isEnabled").getD .undefined) then
      { allowed := false, reason := some "Service is disabled" }
    else
      let serviceDef := getServiceDefinition catalog p.service
      if !ctx.isGroup &&
          !(match serviceDef with
            | some sd => sd.allowInPrivateChat
            | none => false) then
        { allowed := false, reason := some "Service is only available in groups" }
      else
        match serviceDef.bind
            (fun sd => p.command.bind (fun c => alistGet sd.commands c)) with
        | none => { allowed := false, reason := some "Unknown command" }
        | some commandDef =>
          let userRoles := getUserRoles st ctx.userId ctx.chatId p.service
          match getBestMatchingSyntax userRoles commandDef with
          | none =>
            { allowed := false,
              reason := some "You do not have permission to use this command" }
          | some (i, _) =>
            { allowed := true, roles := some userRoles, syntaxIndex := some i }

/-- The `switch (type)` tail of `canExecute`. -/
def canExecuteSwitch (catalog : List (String × ServiceDef)) (st : BotState)
    (ctx : PermContext) (p : ParsedRef) : PermResult :=
  if p.ptype = "builtin" then { allowed := true }
  else if p.ptype = "root" then checkRootPermission st ctx.userId
  else if p.ptype = "admin" then checkAdminPermission st ctx
  else if p.ptype = "service" then checkServicePermission catalog st ctx p
  else { allowed := false, reason := some "Unknown command type" }

/-- `PermissionManager.canExecute`.

The per-chat enabled check reads `chatSettings?.adminSettings?.isEnabled`,
but `getChatSettings` already returned the chat's admin-settings object, so
the chain looks for an `adminSettings` property inside it (`nested` below)
and then `isEnabled` on whatever that yields. -/
def canExecute (catalog : List (String × ServiceDef)) (st : BotState)
    (ctx : PermContext) (p : ParsedRef) : PermResult :=
  if !(jsTruthy ((alistGet st.rootSettings "isEnabled").getD .undefined)) then
    { allowed := false, reason := some "Bot is disabled globally" }
  else if checkBlacklist (getRootBlacklist st) ctx.userId (some ctx.chatId)
      p.service p.command then
    { allowed := false, reason := some "You are blacklisted from this command" }
  else if ctx.isGroup || ctx.chatId ≠ "" then
    let chatSettings := getChatSettings st ctx.chatId
    let nested : JVal :=
      match chatSettings with
      | none => JVal.undefined
      | some as => (alistGet as "adminSettings").getD .undefined
    if jsIsFalse (jsGet nested "isEnabled") then
      { allowed := false, reason := some "Bot is disabled in this chat" }
    else if checkBlacklist (getGroupBlacklist st ctx.chatId) ctx.userId none
        p.service p.command then
      { allowed := false,
        reason := some "You are blacklisted from this command in this group" }
    else canExecuteSwitch catalog st ctx p
  else canExecuteSwitch catalog st ctx p

/-- Failing state for C4: the chat `g1@g.us` exists with
`adminSettings.isEnabled = false`; the bot is globally enabled; no blacklist
entries. -/
def exampleStateC4 : BotState :=
  { rootUsers := ["root@s.whatsapp.net"],
    rootSettings := [("isEnabled", .bool true), ("rootPrefix", .str "root"),
      ("adminPrefix", .str "admin"), ("blackList", .list [])],
    chats := [("g1@g~us",
      { chatType := "group",
        adminSettings := [("disableServicePrefix", .jsNull),
          ("isEnabled", .bool false), ("argsOnlyCommand", .jsNull),
          ("replyOnParsingError", .bool false), ("blackList", .list [])],
        services := [] })] }

/-! ### Message router (`MessageRouter`)

The router sequences session handling, parsing, permission and execution.
External collaborators and the components already modelled elsewhere enter
through a `RouterEnv` of pure functions: the schema lookup, the permission
manager's verdict, the handler registry, argument re-binding and prompt
rendering.  None of them can touch the session store — in the source the
only session mutations are the `SessionManager` calls made by the router
itself (no handler in the repository calls the session manager). -/

/-- A parsed command as the router consumes it. -/
structure Parsed where
  ptype : String
  service : Option String := none
  command : String := ""
  args : List (String × JVal) := []
  rawArgs : Option String := none
  perror : Option String := none
  interactive : Bool := true
  oneCmdPerMsg : Bool := false
  argsOnly : Bool := false
  syntaxIndex : Option Nat := none
deriving Repr

/-- A reply the router would send. -/
structure Response where
  text : String
  isError : Bool := false
deriving Repr

/-- The context fields the router uses. -/
structure RouterContext where
  chatId : String
  userId : String
  body : String := ""
deriving Repr

/-- External collaborators of the router, as pure functions. -/
structure RouterEnv where
  getCommandDefinition : String → String → Option CommandDef
  canExecutePerm : RouterContext → Parsed → PermResult
  handlerFor : String → String → Option (RouterContext → Parsed → Option String)
  reparseArgs : Parsed → Nat → List (String × JVal)
  replyOnParsingError : Bool
  promptText : Session → Option CommandDef → String

/-- `parsed.type === 'service' ? parsed.service : parsed.type`. -/
def scopeOf (p : Parsed) : String :=
  if p.ptype = "service" then p.service.getD "" else p.ptype

/-- `CommandParser.getMissingArgs`: the required parameters (no default, not
optional) of the selected syntax that are still undefined (absent). -/
def getMissingArgs (args : List (String × JVal)) (cd : CommandDef)
    (syntaxIndex : Nat) : List String :=
  let parameters :=
    match (effectiveSyntaxes cd).get? syntaxIndex with
    | some sx => sx.parameters
    | none => []
  parameters.filterMap (fun pd =>
    if (alistGet args pd.1).isNone && !pd.2.optional && pd.2.default.isNone
    then some pd.1 else none)

/-- `MessageRouter.wouldTriggerInteractive`: a pre-scan used by the
multi-command path: no parse error, interactive not disabled, no raw
arguments, and some syntax declares a required parameter. -/
def wouldTriggerInteractive (env : RouterEnv) (p : Parsed) : Bool :=
  if p.perror.isSome || p.interactive = false then false
  else if (match p.rawArgs with
           | some r => r ≠ "" && jsTrim r ≠ ""
           | none => false) then false
  else
    match env.getCommandDefinition (scopeOf p) p.command with
    | none => false
    | some cd =>
      (effectiveSyntaxes cd).any (fun sx =>
        sx.parameters.any (fun pd => !pd.2.optional && pd.2.default.isNone))

/-- `SessionManager.createSession`: build the session record and save it
under its key. -/
def createSession (store : List (String × Session)) (now : Nat)
    (ctx : RouterContext) (p : Parsed) (missing : List String) :
    Session × List (String × Session) :=
  let key := getSessionKey ctx.chatId ctx.userId p.service p.command
  let sess : Session :=
    { key := key, chatId := ctx.chatId, userId := ctx.userId,
      service := if strTruthy p.service then p.service else none,
      command := p.command, stype := p.ptype,
      syntaxIndex := p.syntaxIndex.getD 0, collectedArgs := p.args,
      pendingArgs := missing, currentArgIndex := 0,
      expiresAt := now + sessionTimeout }
  (sess, alistSet store key sess)

/-- The handler path at the end of `MessageRouter.executeCommand`: missing
handler yields an error reply; a handler returning nothing yields no reply;
otherwise the reply text.  The session store is untouched. -/
def runHandler (env : RouterEnv) (ctx : RouterContext) (p : Parsed)
    (store : List (String × Session)) :
    Option Response × List (String × Session) :=
  match env.handlerFor (scopeOf p) p.command with
  | none => (some { text := "Handler not implemented", isError := true }, store)
  | some h =>
    match h ctx p with
    | none => (none, store)
    | some txt => (some { text := txt }, store)

/-- `MessageRouter.executeCommand`: when the command is interactive and was
called with no raw arguments and required arguments are missing, open a
session and reply with the first prompt; otherwise run the handler. -/
def executeCommand (env : RouterEnv) (now : Nat) (ctx : RouterContext)
    (p : Parsed) (store : List (String × Session)) :
    Option Response × List (String × Session) :=
  let noArgsProvided :=
    match p.rawArgs with
    | none => true
    | some r => jsTrim r = ""
  if p.interactive && noArgsProvided then
    match env.getCommandDefinition (scopeOf p) p.command with
    | some cd =>
      if (getMissingArgs p.args cd (p.syntaxIndex.getD 0)).isEmpty then
        runHandler env ctx p store
      else
        let cs := createSession store now ctx p
          (getMissingArgs p.args cd (p.syntaxIndex.getD 0))
        (some { text := env.promptText cs.1 (some cd) }, cs.2)
    | none => runHandler env ctx p store
  else runHandler env ctx p store

/-- `MessageRouter.handleSessionResponse`: feed the body to the session
manager and act on its verdict; a completed session is turned back into a
parsed command and executed. -/
def handleSessionResponse (env : RouterEnv) (now : Nat) (ctx : RouterContext)
    (store : List (String × Session)) :
    Option Response × List (String × Session) :=
  let hr := handleResponse ctx.body ctx.chatId ctx.userId now store
  match hr.1.action with
  | .noSession => (none, hr.2)
  | .cancelled => (some { text := "_Cancelled_" }, hr.2)
  | .skipped =>
    match hr.1.session with
    | some s =>
      let cd := env.getCommandDefinition
        (if s.stype = "service" then s.service.getD "" else s.stype) s.command
      (some { text := "_skipped_" ++ env.promptText s cd }, hr.2)
    | none => (none, hr.2)
  | .continued =>
    match hr.1.session with
    | some s =>
      let cd := env.getCommandDefinition
        (if s.stype = "service" then s.service.getD "" else s.stype) s.command
      (some { text := env.promptText s cd }, hr.2)
    | none => (none, hr.2)
  | .complete =>
    match hr.1.session with
    | some s =>
      executeCommand env now ctx
        { ptype := s.stype, service := s.service, command := s.command,
          args := s.collectedArgs, syntaxIndex := some s.syntaxIndex } hr.2
    | none => (none, hr.2)

/-- The shared `syntaxIndex` / re-binding step of both execution paths. -/
def applySyntaxIndex (env : RouterEnv) (perm : PermResult) (p : Parsed) :
    Parsed :=
  match perm.syntaxIndex with
  | some i =>
    let p2 := { p with syntaxIndex := some i }
    if strTruthy p.rawArgs && decide (0 < i) then
      { p2 with args := env.reparseArgs p2 i }
    else p2
  | none => p

/-- `MessageRouter.executeSingleCommand`. -/
def executeSingleCommand (env : RouterEnv) (now : Nat) (ctx : RouterContext)
    (p : Parsed) (store : List (String × Session)) :
    Option Response × List (String × Session) :=
  match p.perror with
  | some e =>
    if env.replyOnParsingError || !p.argsOnly then
      (some { text := e, isError := true }, store)
    else (none, store)
  | none =>
    let permission := env.canExecutePerm ctx p
    if !permission.allowed then
      (some { text := permission.reason.getD "", isError := true }, store)
    else executeCommand env now ctx (applySyntaxIndex env permission p) store

/-- One collected response of the multi-command loop. -/
structure MultiResp where
  text : Option String := none
  merror : Option String := none
  service : Option String := none
  command : Option String := none
  processed : Bool := false
deriving Repr

/-- The command loop of `MessageRouter.executeMultipleCommands`. -/
def multiLoop (env : RouterEnv) (now : Nat) (ctx : RouterContext) :
    List Parsed → List (String × Session) → List MultiResp →
    List (String × Session) × List MultiResp
  | [], store, responses => (store, responses)
  | p :: rest, store, responses =>
    if p.oneCmdPerMsg &&
        responses.any (fun r => r.service = p.service && r.processed) then
      multiLoop env now ctx rest store responses
    else
      match p.perror with
      | some e =>
        multiLoop env now ctx rest store
          (responses ++ [{ merror := some e, service := p.service }])
      | none =>
        let permission := env.canExecutePerm ctx p
        if !permission.allowed then
          multiLoop env now ctx rest store
            (responses ++ [{ merror := permission.reason, service := p.service }])
        else
          let ec := executeCommand env now ctx
            (applySyntaxIndex env permission p) store
          match ec.1 with
          | some resp =>
            let mr : MultiResp :=
              { text := some resp.text, service := p.service,
                command := some p.command, processed := true }
            multiLoop env now ctx rest ec.2 (responses ++ [mr])
          | none => multiLoop env now ctx rest ec.2 responses

/-- Combining the collected responses into one reply (`null` when none). -/
def combineResponses (rs : List MultiResp) : Option Response :=
  match rs with
  | [] => none
  | [r] =>
    match r.merror with
    | some e => some { text := e, isError := true }
    | none => some { text := r.text.getD "" }
  | _ =>
    let combined :=
      String.intercalate "\n" (rs.map (fun r => r.merror.getD (r.text.getD "")))
    some { text := combined }

/-- `MessageRouter.executeMultipleCommands`: reject when more than one
command would trigger interactive mode, else run the loop. -/
def executeMultipleCommands (env : RouterEnv) (now : Nat)
    (ctx : RouterContext) (ps : List Parsed)
    (store : List (String × Session)) :
    Option Response × List (String × Session) :=
  if 1 < (ps.filter (fun p => wouldTriggerInteractive env p)).length then
    (some { text := "Cannot use multiple interactive commands in one message",
            isError := true }, store)
  else
    let r := multiLoop env now ctx ps store []
    (combineResponses r.2, r.1)

/-- The parser's outcome for the inbound body: nothing, one command, or a
list (the parser itself never touches sessions, so the router invariant is
proved for every possible outcome). -/
inductive ParseOutcome where
  | noCommand : ParseOutcome
  | single (p : Parsed) : ParseOutcome
  | multiple (ps : List Parsed) : ParseOutcome

/-- `MessageRouter.route`: session handling first; its non-null result is
returned before any parsing; otherwise dispatch on the parse outcome. -/
def route (env : RouterEnv) (now : Nat) (ctx : RouterContext)
    (po : ParseOutcome) (store : List (String × Session)) :
    Option Response × List (String × Session) :=
  let sr := handleSessionResponse env now ctx store
  match sr.1 with
  | some r => (some r, sr.2)
  | none =>
    match po with
    | .noCommand => (none, sr.2)
    | .single p => executeSingleCommand env now ctx p sr.2
    | .multiple ps => executeMultipleCommands env now ctx ps sr.2

/-- Is this session live (unexpired) for the given `(chatId, userId)`? -/
def sessionLive (now : Nat) (chatId userId : String) (s : Session) : Bool :=
  s.chatId = chatId && s.userId = userId && !(s.expiresAt < now)

/-- Number of live sessions of one `(chatId, userId)` pair. -/
def liveCount (store : List (String × Session)) (now : Nat)
    (chatId userId : String) : Nat :=
  (store.filter (fun kv => sessionLive now chatId userId kv.2)).length

/-- Well-formedness of the session store: map keys are unique, every session
is stored under its own `key`, and — the session-exclusivity invariant — at
most one live session exists per `(chatId, userId)`. -/
def StoreWF (store : List (String × Session)) (now : Nat) : Prop :=
  (store.map Prod.fst).Nodup
  ∧ (∀ kv ∈ store, kv.2.key = kv.1)
  ∧ (∀ c u, liveCount store now c u ≤ 1)

/-- A minimal router environment (no commands defined, no handlers), used to
instantiate the router theorems at concrete inputs. -/
def trivialRouterEnv : RouterEnv :=
  { getCommandDefinition := fun _ _ => none,
    canExecutePerm := fun _ _ => { allowed := true },
    handlerFor := fun _ _ => none,
    reparseArgs := fun p _ => p.args,
    replyOnParsingError := false,
    promptText := fun _ _ => "" }

/-! ### Spec-side predicates

These restate the specification's wording as propositions, to be compared
with the embedded source functions. -/

/-- Spec wording for syntax selection: the syntax's `allowedRoles` (the source
defaults a missing field to `['admin']`) contains the wildcard `*` or
intersects the user's roles. -/
def specSyntaxMatch (userRoles : List String) (s : SyntaxDef) : Prop :=
  "*" ∈ s.allowedRoles.getD ["admin"] ∨ ∃ r ∈ userRoles, r ∈ s.allowedRoles.getD ["admin"]

/-- Spec wording for a blacklist-entry match: the user id equals, and each of
the groups / services / commands fields is missing, contains the wildcard, or
contains the caller's chat / service / command. -/
def specEntryMatches (userId chatId service svcCommand : String)
    (e : BlacklistEntry) : Prop :=
  e.userId = userId
  ∧ (e.groups = none ∨ "*" ∈ e.groups.getD [] ∨ chatId ∈ e.groups.getD [])
  ∧ (e.services = none ∨ "*" ∈ e.services.getD [] ∨ service ∈ e.services.getD [])
  ∧ (e.commands = none ∨ "*" ∈ e.commands.getD [] ∨ svcCommand ∈ e.commands.getD [])

/-! ## Theorems -/

/-- The boolean syntax test of the source agrees with the spec's wording. -/
theorem syntaxAdmits_iff_specSyntaxMatch (u : List String) (s : SyntaxDef) :
    syntaxAdmits u s = true ↔ specSyntaxMatch u s := by
  unfold syntaxAdmits specSyntaxMatch
  simp [List.any_eq_true, List.elem_iff]

/-- The indexed scan returns `none` exactly when no syntax admits the
roles. -/
theorem findMatchingSyntaxFrom_eq_none (u : List String) (l : List SyntaxDef)
    (i : Nat) :
    findMatchingSyntaxFrom u i l = none ↔ ∀ s ∈ l, syntaxAdmits u s = false := by
  induction l generalizing i with
  | nil => simp [findMatchingSyntaxFrom]
  | cons s rest ih =>
    by_cases h : syntaxAdmits u s = true
    · constructor
      · intro hcontra
        rw [findMatchingSyntaxFrom] at hcontra
        simp [h] at hcontra
      · intro ha
        have hs := ha s (List.mem_cons_self s rest)
        rw [h] at hs
        cases hs
    · have hb : syntaxAdmits u s = false := by simpa using h
      simp only [findMatchingSyntaxFrom, hb, Bool.false_eq_true, if_false, ih,
        List.mem_cons]
      constructor
      · intro ha t ht
        rcases ht with ht | ht
        · subst ht; exact hb
        · exact ha t ht
      · intro ha t ht
        exact ha t (Or.inr ht)

/-- The indexed scan returns the first admitting syntax, counting from `i`. -/
theorem findMatchingSyntaxFrom_eq_some (u : List String) (l : List SyntaxDef)
    (i j : Nat) (s : SyntaxDef)
    (h : findMatchingSyntaxFrom u i l = some (j, s)) :
    i ≤ j ∧ l.get? (j - i) = some s ∧ syntaxAdmits u s = true ∧
      ∀ m t, m < j - i → l.get? m = some t → syntaxAdmits u t = false := by
  induction l generalizing i with
  | nil => simp [findMatchingSyntaxFrom] at h
  | cons hd rest ih =>
    by_cases hadm : syntaxAdmits u hd
    · simp only [findMatchingSyntaxFrom, hadm, if_true, Option.some.injEq,
        Prod.mk.injEq] at h
      obtain ⟨hj, hs⟩ := h
      subst hj; subst hs
      refine ⟨Nat.le_refl _, ?_, hadm, ?_⟩
      · simp
      · intro m t hm _
        omega
    · simp only [findMatchingSyntaxFrom, hadm, if_false] at h
      obtain ⟨hij, hget, hadm', hmin⟩ := ih (i + 1) h
      have hij' : i ≤ j := by omega
      have hsub : j - i = (j - (i + 1)) + 1 := by omega
      refine ⟨hij', ?_, hadm', ?_⟩
      · rw [hsub]
        simpa using hget
      · intro m t hm hget'
        match m, hget' with
        | 0, hget' =>
          have hth : hd = t := by simpa using hget'
          cases hth
          simpa using hadm
        | Nat.succ m', hget' =>
          have hm' : m' < j - (i + 1) := by omega
          exact hmin m' t hm' (by simpa using hget')

/-- Character-level helper for the round-trip proof: decoding after encoding
is the identity on every character other than a tilde. -/
theorem replaceChar_roundtrip_data (l : List Char) (h : ∀ c ∈ l, c ≠ '~') :
    (l.map (fun c => if c = '.' then '~' else c)).map
        (fun c => if c = '~' then '.' else c) = l := by
  induction l with
  | nil => rfl
  | cons c cs ih =>
    have hc : c ≠ '~' := h c (List.mem_cons_self c cs)
    have ih' := ih (fun x hx => h x (List.mem_cons_of_mem _ hx))
    by_cases hcd : c = '.' <;> simp [hcd, hc, ih']

/-- C1 counterexample: the round-trip `decodeKey (encodeKey k) = k` fails for
a key that already contains a tilde: `"a~b"` encodes to itself (it has no
dots) but decodes to `"a.b"`. -/
theorem C1_roundtrip_counterexample :
    decodeKey (encodeKey "a~b") ≠ "a~b" := by decide

/-- C1 (amended): for every string `k` that contains no tilde — in particular
for every key containing dots — decoding the encoded form returns `k`:
`decodeKey (encodeKey k) = k`. -/
theorem C1_decodeKey_encodeKey_roundtrip (k : String)
    (h : ∀ c ∈ k.data, c ≠ '~') : decodeKey (encodeKey k) = k := by
  by_cases hk : k = ""
  · simp [hk, encodeKey, decodeKey]
  · have h1 : encodeKey k =
        String.mk (k.data.map (fun c => if c = '.' then '~' else c)) := by
      simp [encodeKey, hk, replaceChar]
    have hne :
        String.mk (k.data.map (fun c => if c = '.' then '~' else c)) ≠ "" := by
      intro he
      have hdata : k.data.map (fun c => if c = '.' then '~' else c) = [] :=
        congrArg String.data he
      have hkd : k.data = [] := List.map_eq_nil_iff.mp hdata
      apply hk
      cases k with
      | mk d =>
        have hd : d = [] := hkd
        cases hd
        rfl
    rw [h1]
    rw [decodeKey, if_neg hne]
    cases k with
    | mk d =>
      have hr := replaceChar_roundtrip_data d h
      exact congrArg String.mk hr

/-- C1 witness: the amended round-trip at the dotted key `"a.b"`. -/
theorem C1_roundtrip_witness : decodeKey (encodeKey "a.b") = "a.b" :=
  C1_decodeKey_encodeKey_roundtrip "a.b" (by decide)

/-- C2: for every user-role list and every command definition with an ordered
syntax list, `getBestMatchingSyntax` returns `none` exactly when no syntax's
`allowedRoles` contains `*` or intersects the roles, and otherwise returns
the lowest-indexed such syntax together with its index. -/
theorem C2_getBestMatchingSyntax_first_match (u : List String)
    (l : List SyntaxDef) :
    (getBestMatchingSyntax u { syntaxes := some l } = none ↔
      ∀ s ∈ l, ¬ specSyntaxMatch u s)
    ∧ (∀ j s, getBestMatchingSyntax u { syntaxes := some l } = some (j, s) →
        l.get? j = some s ∧ specSyntaxMatch u s ∧
        ∀ m t, m < j → l.get? m = some t → ¬ specSyntaxMatch u t) := by
  have heff : effectiveSyntaxes { syntaxes := some l } = l := rfl
  constructor
  · rw [getBestMatchingSyntax, heff, findMatchingSyntaxFrom_eq_none]
    constructor
    · intro ha s hs
      rw [← syntaxAdmits_iff_specSyntaxMatch]
      simp [ha s hs]
    · intro ha s hs
      have := ha s hs
      rw [← syntaxAdmits_iff_specSyntaxMatch] at this
      simpa using this
  · intro j s hj
    rw [getBestMatchingSyntax, heff] at hj
    obtain ⟨-, hget, hadm, hmin⟩ := findMatchingSyntaxFrom_eq_some u l 0 j s hj
    refine ⟨by simpa using hget, (syntaxAdmits_iff_specSyntaxMatch u s).mp hadm, ?_⟩
    intro m t hm hget'
    have := hmin m t (by omega) hget'
    rw [← syntaxAdmits_iff_specSyntaxMatch]
    simp [this]

/-- C2 witness: the characterisation instantiated at a concrete two-syntax
command, where a `member` user selects the second (wildcard) syntax: position
one holds it, it matches, and the lower-indexed syntax does not. -/
theorem C2_getBestMatchingSyntax_witness :
    ([{ allowedRoles := some ["admin"] },
      { allowedRoles := some ["*"] }] : List SyntaxDef).get? 1 =
        some { allowedRoles := some ["*"] } ∧
    specSyntaxMatch ["member"] { allowedRoles := some ["*"] } ∧
    ∀ m t, m < 1 →
      ([{ allowedRoles := some ["admin"] },
        { allowedRoles := some ["*"] }] : List SyntaxDef).get? m = some t →
      ¬ specSyntaxMatch ["member"] t :=
  (C2_getBestMatchingSyntax_first_match ["member"]
      [{ allowedRoles := some ["admin"] }, { allowedRoles := some ["*"] }]).2
    1 { allowedRoles := some ["*"] } rfl

/-- C7: blacklist monotonicity.  Inserting an entry anywhere in the list
cannot turn a denial (`true`) into an allowance, and removing an entry cannot
turn an allowance (`false`) into a denial. -/
theorem C7_checkBlacklist_monotone (bl1 bl2 : List BlacklistEntry)
    (e : BlacklistEntry) (u : String) (c s cmd : Option String) :
    (checkBlacklist (bl1 ++ bl2) u c s cmd = true →
      checkBlacklist (bl1 ++ e :: bl2) u c s cmd = true)
    ∧ (checkBlacklist (bl1 ++ e :: bl2) u c s cmd = false →
      checkBlacklist (bl1 ++ bl2) u c s cmd = false) := by
  unfold checkBlacklist
  simp only [List.any_append, List.any_cons, Bool.or_eq_true,
    Bool.or_eq_false_iff]
  constructor
  · intro h
    rcases h with h | h
    · exact Or.inl h
    · exact Or.inr (Or.inr h)
  · intro h
    exact ⟨h.1, h.2.2⟩

/-- C7 witness: inserting an unrelated entry keeps the user denied. -/
theorem C7_checkBlacklist_monotone_witness :
    checkBlacklist ([] ++ { userId := "v" } :: [{ userId := "u" }]) "u"
      none none none = true :=
  (C7_checkBlacklist_monotone [] [{ userId := "u" }] { userId := "v" } "u"
      none none none).1 (by decide)

/-- One entry of `checkBlacklist` agrees with the spec's matching rule when
the chat, service and command are all provided (non-null, non-empty). -/
theorem entryMatches_iff_specEntryMatches (u c s cmd : String)
    (hc : c ≠ "") (hs : s ≠ "") (hcmd : cmd ≠ "") (e : BlacklistEntry) :
    entryMatches u (some c) (some s) (some cmd) e = true ↔
      specEntryMatches u c s cmd e := by
  unfold entryMatches specEntryMatches
  cases e with
  | mk euser egroups eservices ecommands =>
    cases egroups <;> cases eservices <;> cases ecommands <;>
      simp [strTruthy, hc, hs, hcmd, List.elem_iff, decide_eq_true_eq,
        and_assoc]

/-- C8: with all scopes provided, `checkBlacklist` denies exactly when some
entry matches per the spec rule: user id equal, and each scope field missing,
wildcard, or containing the caller's chat / service / command. -/
theorem C8_checkBlacklist_match_rule (bl : List BlacklistEntry)
    (u c s cmd : String) (hc : c ≠ "") (hs : s ≠ "") (hcmd : cmd ≠ "") :
    checkBlacklist bl u (some c) (some s) (some cmd) = true ↔
      ∃ e ∈ bl, specEntryMatches u c s cmd e := by
  unfold checkBlacklist
  rw [List.any_eq_true]
  constructor
  · rintro ⟨e, he, hm⟩
    exact ⟨e, he, (entryMatches_iff_specEntryMatches u c s cmd hc hs hcmd e).mp hm⟩
  · rintro ⟨e, he, hm⟩
    exact ⟨e, he, (entryMatches_iff_specEntryMatches u c s cmd hc hs hcmd e).mpr hm⟩

/-- Unfolding lemma for association-list lookup. -/
theorem alistGet_cons {α : Type} (p : String × α) (rest : List (String × α))
    (k : String) :
    alistGet (p :: rest) k = if p.1 = k then some p.2 else alistGet rest k := by
  by_cases h : p.1 = k <;> simp [alistGet, List.find?_cons, h]

/-- Setting a key makes it readable. -/
theorem alistGet_alistSet_self {α : Type} (m : List (String × α)) (k : String)
    (v : α) : alistGet (alistSet m k v) k = some v := by
  induction m with
  | nil => simp [alistSet, alistGet_cons, alistGet]
  | cons p rest ih =>
    by_cases h : p.1 = k
    · simp [alistSet, h, alistGet_cons]
    · simp [alistSet, h, alistGet_cons, ih]

/-- Setting a key leaves other keys unchanged. -/
theorem alistGet_alistSet_ne {α : Type} (m : List (String × α)) (k k' : String)
    (v : α) (h : k' ≠ k) : alistGet (alistSet m k v) k' = alistGet m k' := by
  induction m with
  | nil =>
    have hk : ¬(k = k') := fun he => h he.symm
    simp [alistSet, alistGet_cons, alistGet, hk]
  | cons p rest ih =>
    by_cases hp : p.1 = k
    · subst hp
      have hne : ¬(p.1 = k') := fun he => h he.symm
      simp [alistSet, alistGet_cons, hne]
    · simp [alistSet, hp, alistGet_cons, ih]

/-- Every entry of an updated association list is an original entry or the
newly written pair. -/
theorem mem_alistSet {α : Type} (m : List (String × α)) (k : String) (v : α)
    (e : String × α) (he : e ∈ alistSet m k v) : e ∈ m ∨ e = (k, v) := by
  induction m with
  | nil => simpa [alistSet] using he
  | cons p rest ih =>
    by_cases hp : p.1 = k
    · simp only [alistSet, hp, if_true, List.mem_cons] at he
      rcases he with he | he
      · exact Or.inr he
      · exact Or.inl (List.mem_cons_of_mem _ he)
    · simp only [alistSet, hp, if_false, List.mem_cons] at he
      rcases he with he | he
      · exact Or.inl (by simp [he])
      · rcases ih he with h1 | h1
        · exact Or.inl (List.mem_cons_of_mem _ h1)
        · exact Or.inr h1

/-- A successful lookup is a list entry. -/
theorem alistGet_mem {α : Type} (m : List (String × α)) (k : String) (v : α)
    (h : alistGet m k = some v) : (k, v) ∈ m := by
  induction m with
  | nil => simp [alistGet] at h
  | cons p rest ih =>
    rw [alistGet_cons] at h
    by_cases hp : p.1 = k
    · rw [if_pos hp] at h
      have hv : p.2 = v := by simpa using h
      have hpkv : p = (k, v) := by
        cases p with
        | mk a b2 => simp_all
      rw [hpkv]
      exact List.mem_cons_self _ _
    · rw [if_neg hp] at h
      exact List.mem_cons_of_mem _ (ih h)

/-- After `addMemberSvc _ b true` the user is in the `admin` role list. -/
theorem addMemberSvc_admin_mem (svc : ServiceInstance) (b : String) :
    b ∈ roleUsers (addMemberSvc svc b true) "admin" := by
  unfold addMemberSvc roleUsers
  by_cases h : b ∈ (alistGet svc.roles "admin").getD []
  · simp [h]
  · simp [h, alistGet_alistSet_self]

/-- `addMemberSvc _ b true` does not change the `member` role list. -/
theorem addMemberSvc_true_member (svc : ServiceInstance) (b : String) :
    alistGet (addMemberSvc svc b true).roles "member" =
      alistGet svc.roles "member" := by
  unfold addMemberSvc
  by_cases h : b ∈ roleUsers svc "admin"
  · simp [h]
  · simp [h, alistGet_alistSet_ne _ _ _ _ (by decide : "member" ≠ "admin")]

/-- `addMemberSvc` preserves duplicate-freeness of every role list. -/
theorem addMemberSvc_nodup (svc : ServiceInstance) (b : String)
    (isAdmin : Bool) (hnd : ∀ ru ∈ svc.roles, ru.2.Nodup) :
    ∀ ru ∈ (addMemberSvc svc b isAdmin).roles, ru.2.Nodup := by
  unfold addMemberSvc
  by_cases h : b ∈ roleUsers svc (if isAdmin then "admin" else "member")
  · simpa [h] using hnd
  · simp only [h, if_false]
    intro ru hru
    rcases mem_alistSet _ _ _ _ hru with hm | heq
    · exact hnd ru hm
    · subst heq
      simp only
      rw [List.nodup_append]
      refine ⟨?_, List.nodup_singleton b, ?_⟩
      · unfold roleUsers
        cases hget : alistGet svc.roles (if isAdmin then "admin" else "member") with
        | none => simp
        | some l =>
          simpa using hnd _ (alistGet_mem _ _ _ hget)
      · intro a ha hb
        have : a = b := by simpa using hb
        subst this
        exact h ha

/-- After `removeMemberSvc`, the user is absent from every duplicate-free
role list. -/
theorem removeMemberSvc_not_mem (svc : ServiceInstance) (b : String)
    (hnd : ∀ ru ∈ svc.roles, ru.2.Nodup) :
    ∀ ru ∈ (removeMemberSvc svc b).roles, b ∉ ru.2 := by
  unfold removeMemberSvc
  intro ru hru
  simp only [List.mem_map] at hru
  obtain ⟨ru', hru', heq⟩ := hru
  subst heq
  exact (hnd ru' hru').not_mem_erase

/-- C3 counterexample: with service `s` having `roles.admin = [a]` and
`roles.member = [b]`, a `promote` event for `b` adds `b` to `admin` but
leaves `b` in `member`, contradicting the claim that `b` is no longer in the
`member` role list. -/
theorem C3_promote_counterexample :
    (handleGroupParticipantEvent exampleServicesC3 "promote" ["b"]).map
        (fun p => (p.1, p.2.roles)) =
      [("s", [("admin", ["a", "b"]), ("member", ["b"])])] := by decide

/-- C3 (amended): a `promote` event for `b` puts `b` into the `admin` role
list of every installed service and leaves every `member` role list
unchanged (so `b` stays a member if it was one); a subsequent `leave` event
for `b` removes `b` from every role list of every installed service.  Role
lists are assumed duplicate-free, as the state operations keep them. -/
theorem C3_promote_then_leave (services : List (String × ServiceInstance))
    (b : String) (hb : b ≠ "")
    (hnd : ∀ p ∈ services, ∀ ru ∈ p.2.roles, ru.2.Nodup) :
    (∀ p ∈ handleGroupParticipantEvent services "promote" [b],
        b ∈ roleUsers p.2 "admin")
    ∧ ((handleGroupParticipantEvent services "promote" [b]).map
          (fun p => alistGet p.2.roles "member")
        = services.map (fun p => alistGet p.2.roles "member"))
    ∧ (∀ p ∈ handleGroupParticipantEvent
          (handleGroupParticipantEvent services "promote" [b]) "leave" [b],
        ∀ ru ∈ p.2.roles, b ∉ ru.2) := by
  have hpromote : handleGroupParticipantEvent services "promote" [b] =
      addMemberToServices services b true := by
    simp [handleGroupParticipantEvent, hb]
  have hleave : ∀ svcs, handleGroupParticipantEvent svcs "leave" [b] =
      removeMemberFromServices svcs b := by
    intro svcs
    simp [handleGroupParticipantEvent, hb]
  refine ⟨?_, ?_, ?_⟩
  · rw [hpromote]
    intro p hp
    simp only [addMemberToServices, List.mem_map] at hp
    obtain ⟨q, _, hq⟩ := hp
    subst hq
    exact addMemberSvc_admin_mem q.2 b
  · rw [hpromote]
    unfold addMemberToServices
    rw [List.map_map]
    exact List.map_eq_map_iff.mpr
      (fun p _ => addMemberSvc_true_member p.2 b)
  · rw [hpromote, hleave]
    intro p hp
    simp only [removeMemberFromServices, addMemberToServices, List.map_map,
      List.mem_map] at hp
    obtain ⟨q, hq, heq⟩ := hp
    subst heq
    exact removeMemberSvc_not_mem _ b
      (addMemberSvc_nodup q.2 b true (hnd q hq))

/-- C3 witness: the amended statement at the concrete scenario-6 state. -/
theorem C3_promote_then_leave_witness :
    (∀ p ∈ handleGroupParticipantEvent exampleServicesC3 "promote" ["b"],
        "b" ∈ roleUsers p.2 "admin")
    ∧ ((handleGroupParticipantEvent exampleServicesC3 "promote" ["b"]).map
          (fun p => alistGet p.2.roles "member")
        = exampleServicesC3.map (fun p => alistGet p.2.roles "member"))
    ∧ (∀ p ∈ handleGroupParticipantEvent
          (handleGroupParticipantEvent exampleServicesC3 "promote" ["b"])
          "leave" ["b"],
        ∀ ru ∈ p.2.roles, "b" ∉ ru.2) :=
  C3_promote_then_leave exampleServicesC3 "b" (by decide) (by decide)

/-- C6: parsing the raw token `"1,3-5,4,4"` as a list of `int` succeeds and
yields exactly `[1, 3, 4, 5]`: the `3-5` token expands to the inclusive
range, and the concatenated results are deduplicated preserving first
occurrence before the (absent) min/max check. -/
theorem C6_parseList_range_dedup :
    parseListInt "1,3-5,4,4" none none = .ok [1, 3, 4, 5] := by rfl

/-- C10: argument binding is total on type errors: whenever the binder hands
token `t` to the type parser for parameter `q`, the bound value is the parsed
value on success and the raw string `t` itself on failure — the message is
never rejected.  (Stated as one equation: the binding for `q` is
`(tp t).getD (str t)`.) -/
theorem C10_parseArguments_raw_fallback
    (tp : String → String → ParamDef → Option JVal)
    (parts : List String) (params : List (String × ParamDef))
    (q : String) (d : ParamDef) (t : String)
    (hq : alistGet params q = some d)
    (ht : consumedTokenFor parts params q = some t) :
    alistGet (parseArgumentsByDefinition tp parts params) q =
      some ((tp t d.ptype d).getD (JVal.str t)) := by
  induction params generalizing parts with
  | nil => simp [alistGet] at hq
  | cons p rest ih =>
    obtain ⟨name, d'⟩ := p
    cases parts with
    | nil => simp [consumedTokenFor] at ht
    | cons t0 ts =>
      rw [alistGet_cons] at hq
      by_cases hqn : q = name
      · subst hqn
        rw [if_pos rfl] at hq
        have hd : d' = d := by simpa using hq
        subst hd
        by_cases hstr : rest.isEmpty ∧ (d'.ptype = "string" ∨ d'.ptype = "Arguments")
        · simp only [consumedTokenFor, hstr, if_true] at ht
          have htj : joinSpace (t0 :: ts) = t := by simpa using ht
          subst htj
          simp [parseArgumentsByDefinition, hstr, alistGet_cons]
        · simp only [consumedTokenFor, hstr, if_false, if_pos rfl] at ht
          have ht0 : t0 = t := by simpa using ht
          subst ht0
          rw [parseArgumentsByDefinition, if_neg hstr, alistGet_cons]
          simp
      · have hqn' : ¬(name = q) := fun he => hqn he.symm
        rw [if_neg hqn'] at hq
        by_cases hstr : rest.isEmpty ∧ (d'.ptype = "string" ∨ d'.ptype = "Arguments")
        · simp [consumedTokenFor, hstr, hqn] at ht
        · simp only [consumedTokenFor, hstr, if_false, hqn] at ht
          rw [parseArgumentsByDefinition]
          simp only [hstr, if_false]
          rw [alistGet_cons, if_neg hqn']
          exact ih ts hq ht

/-- C10 witness: a type-invalid `int` argument is bound to its raw token. -/
theorem C10_parseArguments_raw_fallback_witness :
    alistGet (parseArgumentsByDefinition (fun _ _ _ => none) ["abc"]
      [("n", { ptype := "int" })]) "n" = some (JVal.str "abc") :=
  C10_parseArguments_raw_fallback (fun _ _ _ => none) ["abc"]
    [("n", { ptype := "int" })] "n" { ptype := "int" } "abc" rfl rfl

/-- C5 counterexample: in a live session awaiting the required argument
`amount` (not optional, no default), the input `"skip"` stores `null` and
advances past it — here completing the session — although the claim says a
required argument is not advanced past. -/
theorem C5_skip_required_counterexample :
    exampleAmountDef.optional = false ∧
    (handleResponse "skip" "g1@g.us" "u1@s.whatsapp.net" 0
        [(exampleSessionC5.key, exampleSessionC5)]).1.action =
      SessionAction.complete ∧
    ((handleResponse "skip" "g1@g.us" "u1@s.whatsapp.net" 0
        [(exampleSessionC5.key, exampleSessionC5)]).1.session.map
      (fun u => (u.currentArgIndex, alistGet u.collectedArgs "amount"))) =
      some (1, some JVal.jsNull) :=
  ⟨rfl, rfl, rfl⟩

/-- C5 (amended): in a live session with a pending argument, the input
`"skip"` stores `null` for it and advances to the next pending argument (or
completes the session when it was the last) regardless of whether the
parameter is optional — `handleResponse` never consults the parameter
definition. -/
theorem C5_skip_always_advances (s : Session) (now : Nat)
    (hlive : ¬ s.expiresAt < now)
    (hpend : s.currentArgIndex < s.pendingArgs.length) :
    ∃ u : Session,
      (handleResponse "skip" s.chatId s.userId now [(s.key, s)]).1.session =
        some u
      ∧ u.currentArgIndex = s.currentArgIndex + 1
      ∧ alistGet u.collectedArgs (s.pendingArgs.get ⟨s.currentArgIndex, hpend⟩) =
          some JVal.jsNull
      ∧ (handleResponse "skip" s.chatId s.userId now [(s.key, s)]).1.action =
          (if s.pendingArgs.length ≤ s.currentArgIndex + 1 then
            SessionAction.complete
           else SessionAction.skipped) := by
  have hget : getActiveSession [(s.key, s)] s.chatId s.userId now =
      (some s, [(s.key, s)]) := by
    simp [getActiveSession, hlive]
  have hpa : getCurrentPendingArg s =
      some (s.pendingArgs.get ⟨s.currentArgIndex, hpend⟩) := by
    unfold getCurrentPendingArg
    rw [if_neg (by omega)]
    exact List.get?_eq_get hpend
  have hlook : alistGet [(s.key, s)] s.key = some s := by
    simp [alistGet_cons]
  set argName := s.pendingArgs.get ⟨s.currentArgIndex, hpend⟩ with harg
  set u : Session := { s with
      collectedArgs := alistSet s.collectedArgs argName JVal.jsNull,
      currentArgIndex := s.currentArgIndex + 1,
      expiresAt := now + sessionTimeout } with hu
  have hupd : updateSession [(s.key, s)] s.key argName JVal.jsNull now =
      (some u, alistSet [(s.key, s)] s.key u) := by
    rw [updateSession, hlook]
  refine ⟨u, ?_⟩
  rw [handleResponse, hget]
  simp only []
  unfold handleResponseBody
  simp only []
  rw [if_neg (by decide : ¬ jsToLower (jsTrim "skip") = "cancel"),
    if_pos (by decide : jsToLower (jsTrim "skip") = "skip"), hpa]
  simp only [hupd]
  unfold isSessionComplete
  by_cases hcomp : s.pendingArgs.length ≤ s.currentArgIndex + 1 <;>
    simp [hu, hcomp, alistGet_alistSet_self]

/-- C5 witness: the amended behaviour at the concrete one-argument session. -/
theorem C5_skip_always_advances_witness :
    ∃ u : Session,
      (handleResponse "skip" exampleSessionC5.chatId exampleSessionC5.userId 0
          [(exampleSessionC5.key, exampleSessionC5)]).1.session = some u
      ∧ u.currentArgIndex = exampleSessionC5.currentArgIndex + 1
      ∧ alistGet u.collectedArgs
          (exampleSessionC5.pendingArgs.get
            ⟨exampleSessionC5.currentArgIndex, by decide⟩) = some JVal.jsNull
      ∧ (handleResponse "skip" exampleSessionC5.chatId exampleSessionC5.userId 0
          [(exampleSessionC5.key, exampleSessionC5)]).1.action =
          (if exampleSessionC5.pendingArgs.length ≤
              exampleSessionC5.currentArgIndex + 1 then SessionAction.complete
           else SessionAction.skipped) :=
  C5_skip_always_advances exampleSessionC5 0 (by decide) (by decide)

/-- C4 (code bug): in a chat whose `adminSettings.isEnabled` is `false`, with
the bot globally enabled and no blacklist entry, `canExecute` still allows a
builtin command.  The per-chat disable check reads
`chatSettings?.adminSettings?.isEnabled`, but `getChatSettings` already
returned the admin-settings object — which has no `adminSettings` property —
so the comparison with `false` never succeeds and the check is dead code. -/
theorem C4_chat_disabled_not_rejected :
    ((getChatSettings exampleStateC4 "g1@g.us").map
      (fun as => (alistGet as "isEnabled").getD .undefined)) =
        some (JVal.bool false)
    ∧ (canExecute [] exampleStateC4
        { userId := "u1@s.whatsapp.net", chatId := "g1@g.us", isGroup := true }
        { ptype := "builtin", command := some "ping" }).allowed = true :=
  ⟨rfl, rfl⟩

/-- Live-session count of a cons cell. -/
theorem liveCount_cons (k : String) (s : Session)
    (rest : List (String × Session)) (now : Nat) (c u : String) :
    liveCount ((k, s) :: rest) now c u =
      (if sessionLive now c u s then 1 else 0) + liveCount rest now c u := by
  by_cases h : sessionLive now c u s <;>
    simp [liveCount, List.filter_cons, h, Nat.add_comm]

/-- Live-session counts only shrink along sublists. -/
theorem liveCount_sublist (store' store : List (String × Session)) (now : Nat)
    (c u : String) (h : List.Sublist store' store) :
    liveCount store' now c u ≤ liveCount store now c u :=
  List.Sublist.length_le (List.Sublist.filter _ h)

/-- The store returned by `getActiveSession` is a sublist of the input (it
only deletes expired sessions of the requested pair). -/
theorem getActiveSession_sublist (store : List (String × Session))
    (c u : String) (now : Nat) :
    List.Sublist (getActiveSession store c u now).2 store := by
  induction store with
  | nil => simp [getActiveSession]
  | cons kv rest ih =>
    obtain ⟨k, s⟩ := kv
    rw [getActiveSession]
    by_cases hm : s.chatId = c ∧ s.userId = u
    · rw [if_pos hm]
      by_cases he : s.expiresAt < now
      · rw [if_pos he]
        exact List.Sublist.cons _ ih
      · rw [if_neg he]
    · rw [if_neg hm]
      exact List.Sublist.cons₂ _ ih

/-- When `getActiveSession` finds nothing, no live session of the pair
remains in the returned store. -/
theorem getActiveSession_none (store : List (String × Session))
    (c u : String) (now : Nat)
    (h : (getActiveSession store c u now).1 = none) :
    liveCount (getActiveSession store c u now).2 now c u = 0 := by
  induction store with
  | nil => simp [getActiveSession, liveCount]
  | cons kv rest ih =>
    obtain ⟨k, s⟩ := kv
    rw [getActiveSession] at h ⊢
    by_cases hm : s.chatId = c ∧ s.userId = u
    · rw [if_pos hm] at h ⊢
      by_cases he : s.expiresAt < now
      · rw [if_pos he] at h ⊢
        exact ih h
      · rw [if_neg he] at h
        simp at h
    · rw [if_neg hm] at h ⊢
      simp only at h ⊢
      rw [liveCount_cons]
      have hlive : sessionLive now c u s = false := by
        simp only [sessionLive]
        rcases not_and_or.mp hm with hx | hx <;> simp [hx]
      rw [hlive]
      simpa using ih h

/-- When `getActiveSession` finds a session, it is live for the pair and is
an entry of the returned store. -/
theorem getActiveSession_some (store : List (String × Session))
    (c u : String) (now : Nat) (s : Session)
    (h : (getActiveSession store c u now).1 = some s) :
    sessionLive now c u s = true ∧
      ∃ k, (k, s) ∈ (getActiveSession store c u now).2 := by
  induction store with
  | nil => simp [getActiveSession] at h
  | cons kv rest ih =>
    obtain ⟨k0, s0⟩ := kv
    rw [getActiveSession] at h ⊢
    by_cases hm : s0.chatId = c ∧ s0.userId = u
    · rw [if_pos hm] at h ⊢
      by_cases he : s0.expiresAt < now
      · rw [if_pos he] at h ⊢
        exact ih h
      · rw [if_neg he] at h ⊢
        have hs : s0 = s := by simpa using h
        subst hs
        refine ⟨by simp [sessionLive, hm.1, hm.2, he], k0, ?_⟩
        simp
    · rw [if_neg hm] at h ⊢
      simp only at h ⊢
      obtain ⟨hlive, k1, hmem⟩ := ih h
      exact ⟨hlive, k1, List.mem_cons_of_mem _ hmem⟩

/-- Deletion yields a sublist. -/
theorem alistDel_sublist {α : Type} (m : List (String × α)) (k : String) :
    List.Sublist (alistDel m k) m := by
  induction m with
  | nil => simp [alistDel]
  | cons p rest ih =>
    rw [alistDel]
    by_cases hp : p.1 = k
    · simp only [hp, if_true]
      exact List.sublist_cons_self _ _
    · simp only [hp, if_false]
      exact List.Sublist.cons₂ _ ih

/-- Splitting unique-keys of a cons cell. -/
theorem keys_nodup_cons {α : Type} (p : String × α) (rest : List (String × α))
    (hnd : ((p :: rest).map Prod.fst).Nodup) :
    p.1 ∉ rest.map Prod.fst ∧ (rest.map Prod.fst).Nodup := by
  rw [List.map_cons, List.nodup_cons] at hnd
  exact hnd

/-- Under unique keys, a present entry is what lookup returns. -/
theorem alistGet_of_mem_nodup {α : Type} (m : List (String × α)) (k : String)
    (v : α) (hmem : (k, v) ∈ m) (hnd : (m.map Prod.fst).Nodup) :
    alistGet m k = some v := by
  induction m with
  | nil => cases hmem
  | cons p rest ih =>
    rw [alistGet_cons]
    rcases List.mem_cons.mp hmem with he | he
    · rw [← he]
      simp
    · have hk : k ∈ rest.map Prod.fst :=
        List.mem_map.mpr ⟨(k, v), he, rfl⟩
      have hp : ¬(p.1 = k) := by
        intro hpk
        have := (keys_nodup_cons p rest hnd).1
        rw [hpk] at this
        exact this hk
      rw [if_neg hp]
      exact ih he (keys_nodup_cons p rest hnd).2

/-- A live member forces a positive live count. -/
theorem liveCount_pos_of_mem (m : List (String × Session)) (k : String)
    (s : Session) (now : Nat) (c u : String) (hmem : (k, s) ∈ m)
    (hlive : sessionLive now c u s = true) : 1 ≤ liveCount m now c u := by
  have hf : (k, s) ∈ m.filter (fun kv => sessionLive now c u kv.2) :=
    List.mem_filter.mpr ⟨hmem, by simpa using hlive⟩
  have := List.length_pos.mpr (List.ne_nil_of_mem hf)
  simpa [liveCount] using this

/-- Deleting the key of the unique live session of a pair leaves the pair
with no live session. -/
theorem alistDel_liveCount_zero (m : List (String × Session)) (k : String)
    (s : Session) (now : Nat) (c u : String)
    (hnd : (m.map Prod.fst).Nodup) (hmem : (k, s) ∈ m)
    (hlive : sessionLive now c u s = true)
    (hle : liveCount m now c u ≤ 1) :
    liveCount (alistDel m k) now c u = 0 := by
  induction m with
  | nil => cases hmem
  | cons p rest ih =>
    obtain ⟨k0, s0⟩ := p
    rw [liveCount_cons] at hle
    rcases List.mem_cons.mp hmem with he | he
    · have hk0 : k0 = k := by
        have := congrArg Prod.fst he
        simpa using this.symm
      have hs0 : s0 = s := by
        have := congrArg Prod.snd he
        simpa using this.symm
      subst hk0; subst hs0
      rw [alistDel, if_pos rfl]
      rw [hlive] at hle
      simp only [if_pos rfl, if_true] at hle
      omega
    · by_cases hk : k0 = k
      · exfalso
        have hkeys : k ∈ rest.map Prod.fst :=
          List.mem_map.mpr ⟨(k, s), he, rfl⟩
        have := (keys_nodup_cons (k0, s0) rest hnd).1
        rw [hk] at this
        exact this hkeys
      · rw [alistDel, if_neg hk, liveCount_cons]
        have hpos := liveCount_pos_of_mem rest k s now c u he hlive
        have hs0 : sessionLive now c u s0 = false := by
          by_contra hs0'
          have h1 : sessionLive now c u s0 = true := by
            simpa using hs0'
          rw [h1] at hle
          simp only [if_pos rfl, if_true] at hle
          omega
        rw [hs0]
        have hrest : liveCount rest now c u ≤ 1 := by
          rw [hs0] at hle
          simp at hle
          omega
        have := ih (keys_nodup_cons (k0, s0) rest hnd).2 he hrest
        simpa using this

/-- `alistSet` keeps keys unique. -/
theorem alistSet_keys_nodup {α : Type} (m : List (String × α)) (k : String)
    (v : α) (hnd : (m.map Prod.fst).Nodup) :
    ((alistSet m k v).map Prod.fst).Nodup := by
  induction m with
  | nil => simp [alistSet]
  | cons p rest ih =>
    obtain ⟨hhead, htail⟩ := keys_nodup_cons p rest hnd
    rw [alistSet]
    by_cases hp : p.1 = k
    · simp only [hp, if_true]
      rw [List.map_cons, List.nodup_cons]
      exact ⟨by rw [← hp]; exact hhead, htail⟩
    · simp only [hp, if_false]
      rw [List.map_cons, List.nodup_cons]
      refine ⟨?_, ih htail⟩
      intro hcontra
      rcases List.mem_map.mp hcontra with ⟨e, hmem, hfst⟩
      rcases mem_alistSet rest k v e hmem with hm | hm
      · exact hhead (List.mem_map.mpr ⟨e, hm, hfst⟩)
      · rw [hm] at hfst
        exact hp hfst.symm

/-- Updating an existing key exchanges the old entry's live contribution for
the new one's (stated additively for every pair). -/
theorem liveCount_alistSet_replace (m : List (String × Session))
    (k : String) (v w : Session) (now : Nat) (c u : String)
    (hget : alistGet m k = some w) :
    liveCount (alistSet m k v) now c u +
        (if sessionLive now c u w then 1 else 0)
      = liveCount m now c u + (if sessionLive now c u v then 1 else 0) := by
  induction m with
  | nil => simp [alistGet] at hget
  | cons p rest ih =>
    obtain ⟨k0, s0⟩ := p
    rw [alistGet_cons] at hget
    rw [alistSet]
    by_cases hk : k0 = k
    · simp only [hk, if_true] at hget ⊢
      have hw : s0 = w := by simpa using hget
      subst hw
      rw [liveCount_cons, liveCount_cons]
      omega
    · simp only [hk, if_false] at hget ⊢
      rw [liveCount_cons, liveCount_cons]
      have := ih hget
      omega

/-- Writing a fresh key appends its live contribution. -/
theorem liveCount_alistSet_append (m : List (String × Session))
    (k : String) (v : Session) (now : Nat) (c u : String)
    (hget : alistGet m k = none) :
    liveCount (alistSet m k v) now c u =
      liveCount m now c u + (if sessionLive now c u v then 1 else 0) := by
  induction m with
  | nil =>
    by_cases h : sessionLive now c u v <;>
      simp [alistSet, liveCount, List.filter_cons, h]
  | cons p rest ih =>
    obtain ⟨k0, s0⟩ := p
    rw [alistGet_cons] at hget
    by_cases hk : k0 = k
    · rw [if_pos hk] at hget
      cases hget
    · rw [if_neg hk] at hget
      rw [alistSet, if_neg hk, liveCount_cons, liveCount_cons, ih hget]
      omega

/-- `updateSession` on a present, unexpired session: it succeeds, the stored
session keeps its pair and key, and every pair's live count is unchanged. -/
theorem updateSession_wf (store1 : List (String × Session)) (s : Session)
    (argName : String) (v : JVal) (now : Nat)
    (hnd1 : (store1.map Prod.fst).Nodup)
    (hself1 : ∀ kv ∈ store1, kv.2.key = kv.1)
    (hmem : (s.key, s) ∈ store1)
    (hexp : ¬ s.expiresAt < now) :
    ∃ u' : Session,
      updateSession store1 s.key argName v now =
        (some u', alistSet store1 s.key u')
      ∧ u'.chatId = s.chatId ∧ u'.userId = s.userId ∧ u'.key = s.key
      ∧ u'.currentArgIndex = s.currentArgIndex + 1
      ∧ u'.pendingArgs = s.pendingArgs
      ∧ u'.collectedArgs = alistSet s.collectedArgs argName v
      ∧ ¬ u'.expiresAt < now
      ∧ (∀ c' w', liveCount (alistSet store1 s.key u') now c' w' =
          liveCount store1 now c' w')
      ∧ ((alistSet store1 s.key u').map Prod.fst).Nodup
      ∧ (∀ kv ∈ alistSet store1 s.key u', kv.2.key = kv.1) := by
  have hget : alistGet store1 s.key = some s :=
    alistGet_of_mem_nodup store1 s.key s hmem hnd1
  set u2 : Session := { s with
    collectedArgs := alistSet s.collectedArgs argName v,
    currentArgIndex := s.currentArgIndex + 1,
    expiresAt := now + sessionTimeout } with hu2
  have hsame : ∀ c' w', sessionLive now c' w' s = sessionLive now c' w' u2 := by
    intro c' w'
    have h2 : ¬ now + sessionTimeout < now := by omega
    simp only [hu2, sessionLive]
    simp [hexp, h2]
  refine ⟨u2, ?_, rfl, rfl, rfl, rfl, rfl, rfl, ?_, ?_, ?_, ?_⟩
  · rw [updateSession, hget]
  · show ¬ now + sessionTimeout < now
    omega
  · intro c' w'
    have hrep := liveCount_alistSet_replace store1 s.key u2 s now c' w' hget
    rw [hsame c' w'] at hrep
    omega
  · exact alistSet_keys_nodup store1 s.key _ hnd1
  · intro kv hkv
    rcases mem_alistSet store1 s.key _ kv hkv with hm | hm
    · exact hself1 kv hm
    · rw [hm]

/-- Replacing the unique live session of a pair by a fresh one and then
deleting its key leaves the pair with no live session, and the store
well-formed. -/
theorem setThenDelete_wf (store1 : List (String × Session)) (s u' : Session)
    (now : Nat) (c u : String)
    (hnd1 : (store1.map Prod.fst).Nodup)
    (hself1 : ∀ kv ∈ store1, kv.2.key = kv.1)
    (hmem : (s.key, s) ∈ store1)
    (hlive : sessionLive now c u s = true)
    (hcnt1 : ∀ c' w', liveCount store1 now c' w' ≤ 1)
    (hkey' : u'.key = s.key)
    (hchat' : u'.chatId = s.chatId) (huser' : u'.userId = s.userId)
    (hexp' : ¬ u'.expiresAt < now) :
    liveCount (alistDel (alistSet store1 s.key u') s.key) now c u = 0
    ∧ ((alistDel (alistSet store1 s.key u') s.key).map Prod.fst).Nodup
    ∧ (∀ kv ∈ alistDel (alistSet store1 s.key u') s.key, kv.2.key = kv.1)
    ∧ (∀ c' w', liveCount (alistDel (alistSet store1 s.key u') s.key) now c' w'
        ≤ liveCount store1 now c' w') := by
  have hget : alistGet store1 s.key = some s :=
    alistGet_of_mem_nodup store1 s.key s hmem hnd1
  have hlive' : sessionLive now c u u' = true := by
    simp only [sessionLive] at hlive ⊢
    simp only [hchat', huser', hexp']
    simp only [Bool.and_eq_true, decide_eq_true_eq] at hlive ⊢
    exact ⟨⟨hlive.1.1, hlive.1.2⟩, by simp [hexp']⟩
  have hnd2 : ((alistSet store1 s.key u').map Prod.fst).Nodup :=
    alistSet_keys_nodup store1 s.key u' hnd1
  have hmem2 : (s.key, u') ∈ alistSet store1 s.key u' :=
    alistGet_mem _ _ _ (alistGet_alistSet_self store1 s.key u')
  have hsame : ∀ c' w', sessionLive now c' w' s = sessionLive now c' w' u' := by
    intro c' w'
    simp only [sessionLive, hchat', huser']
    have h1 : (¬ s.expiresAt < now) := by
      simp only [sessionLive, Bool.and_eq_true, decide_eq_true_eq] at hlive
      simpa using hlive.2
    simp [h1, hexp']
  have hcnt2 : ∀ c' w', liveCount (alistSet store1 s.key u') now c' w' =
      liveCount store1 now c' w' := by
    intro c' w'
    have hrep := liveCount_alistSet_replace store1 s.key u' s now c' w' hget
    rw [hsame c' w'] at hrep
    omega
  have hsub2 : List.Sublist (alistDel (alistSet store1 s.key u') s.key)
      (alistSet store1 s.key u') := alistDel_sublist _ _
  refine ⟨?_, ?_, ?_, ?_⟩
  · exact alistDel_liveCount_zero _ s.key u' now c u hnd2 hmem2 hlive'
      (by rw [hcnt2]; exact hcnt1 c u)
  · exact List.Nodup.sublist (List.Sublist.map Prod.fst hsub2) hnd2
  · intro kv hkv
    rcases mem_alistSet store1 s.key u' kv (hsub2.subset hkv) with hm | hm
    · exact hself1 kv hm
    · rw [hm, hkey']
  · intro c' w'
    calc liveCount (alistDel (alistSet store1 s.key u') s.key) now c' w'
        ≤ liveCount (alistSet store1 s.key u') now c' w' :=
          liveCount_sublist _ _ _ _ _ hsub2
      _ = liveCount store1 now c' w' := hcnt2 c' w'

/-- Unfolding of the liveness test. -/
theorem sessionLive_iff (now : Nat) (c u : String) (s : Session) :
    sessionLive now c u s = true ↔
      s.chatId = c ∧ s.userId = u ∧ ¬ s.expiresAt < now := by
  simp [sessionLive, and_assoc]

/-- The regular-input tail of `handleResponse` preserves well-formedness,
never increases any pair's live count, leaves the pair with no live session
when it completes, and never reports `noSession`. -/
theorem sessionRegularInput_wf (s : Session)
    (store1 : List (String × Session)) (msg : String) (now : Nat)
    (c u : String)
    (hnd1 : (store1.map Prod.fst).Nodup)
    (hself1 : ∀ kv ∈ store1, kv.2.key = kv.1)
    (hmem : (s.key, s) ∈ store1)
    (hlive : sessionLive now c u s = true)
    (hcnt1 : ∀ c' w', liveCount store1 now c' w' ≤ 1) :
    ((sessionRegularInput s store1 msg now).2.map Prod.fst).Nodup
    ∧ (∀ kv ∈ (sessionRegularInput s store1 msg now).2, kv.2.key = kv.1)
    ∧ (∀ c' w', liveCount (sessionRegularInput s store1 msg now).2 now c' w' ≤
        liveCount store1 now c' w')
    ∧ ((sessionRegularInput s store1 msg now).1.action =
          SessionAction.complete →
        liveCount (sessionRegularInput s store1 msg now).2 now c u = 0)
    ∧ (sessionRegularInput s store1 msg now).1.action ≠
        SessionAction.noSession
    ∧ ((sessionRegularInput s store1 msg now).1.action =
            SessionAction.skipped ∨
        (sessionRegularInput s store1 msg now).1.action =
            SessionAction.continued →
        (sessionRegularInput s store1 msg now).1.session.isSome) := by
  have hexp : ¬ s.expiresAt < now := ((sessionLive_iff now c u s).mp hlive).2.2
  rw [sessionRegularInput]
  cases hpa : getCurrentPendingArg s with
  | none =>
    simp only
    have hsub := alistDel_sublist store1 s.key
    refine ⟨List.Nodup.sublist (List.Sublist.map Prod.fst hsub) hnd1,
      fun kv hkv => hself1 kv (hsub.subset hkv),
      fun c' w' => liveCount_sublist _ _ _ _ _ hsub,
      fun _ => ?_, by simp, fun h => by rcases h with h | h <;> simp at h⟩
    exact alistDel_liveCount_zero store1 s.key s now c u hnd1 hmem hlive
      (hcnt1 c u)
  | some arg =>
    obtain ⟨u2, hupd, hchat2, huser2, hkey2, _, _, _, hexp2, hlc2, hnd2,
      hself2⟩ := updateSession_wf store1 s arg (JVal.str (jsTrim msg)) now
        hnd1 hself1 hmem hexp
    simp only [hupd]
    by_cases hcomp : isSessionComplete u2
    · obtain ⟨hz, hndD, hselfD, hleD⟩ := setThenDelete_wf store1 s u2 now c u
        hnd1 hself1 hmem hlive hcnt1 hkey2 hchat2 huser2 hexp2
      simp only [hcomp, if_true]
      exact ⟨hndD, hselfD, hleD, fun _ => hz, by simp,
        fun h => by rcases h with h | h <;> simp at h⟩
    · simp only [hcomp, if_false]
      refine ⟨hnd2, hself2, fun c' w' => le_of_eq (hlc2 c' w'), ?_, by simp,
        fun _ => by simp⟩
      intro hcontra
      simp at hcontra

/-- The with-session body of `handleResponse` preserves well-formedness and
live counts, empties the pair on completion, never reports `noSession`, and
always carries a session on `skipped`/`continued`. -/
theorem handleResponseBody_wf (s : Session)
    (store1 : List (String × Session)) (msg : String) (now : Nat)
    (c u : String)
    (hnd1 : (store1.map Prod.fst).Nodup)
    (hself1 : ∀ kv ∈ store1, kv.2.key = kv.1)
    (hmem : (s.key, s) ∈ store1)
    (hlive : sessionLive now c u s = true)
    (hcnt1 : ∀ c' w', liveCount store1 now c' w' ≤ 1) :
    ((handleResponseBody s store1 msg now).2.map Prod.fst).Nodup
    ∧ (∀ kv ∈ (handleResponseBody s store1 msg now).2, kv.2.key = kv.1)
    ∧ (∀ c' w', liveCount (handleResponseBody s store1 msg now).2 now c' w' ≤
        liveCount store1 now c' w')
    ∧ ((handleResponseBody s store1 msg now).1.action =
          SessionAction.complete →
        liveCount (handleResponseBody s store1 msg now).2 now c u = 0)
    ∧ (handleResponseBody s store1 msg now).1.action ≠
        SessionAction.noSession
    ∧ ((handleResponseBody s store1 msg now).1.action =
            SessionAction.skipped ∨
        (handleResponseBody s store1 msg now).1.action =
            SessionAction.continued →
        (handleResponseBody s store1 msg now).1.session.isSome) := by
  have hexp : ¬ s.expiresAt < now := ((sessionLive_iff now c u s).mp hlive).2.2
  unfold handleResponseBody
  simp only []
  by_cases hcancel : jsToLower (jsTrim msg) = "cancel"
  · rw [if_pos hcancel]
    have hsub := alistDel_sublist store1 s.key
    exact ⟨List.Nodup.sublist (List.Sublist.map Prod.fst hsub) hnd1,
      fun kv hkv => hself1 kv (hsub.subset hkv),
      fun c' w' => liveCount_sublist _ _ _ _ _ hsub,
      fun hc => by simp at hc, by simp,
      fun h => by rcases h with h | h <;> simp at h⟩
  · rw [if_neg hcancel]
    by_cases hskip : jsToLower (jsTrim msg) = "skip"
    · rw [if_pos hskip]
      cases hpa : getCurrentPendingArg s with
      | none =>
        exact sessionRegularInput_wf s store1 msg now c u hnd1 hself1 hmem
          hlive hcnt1
      | some arg =>
        obtain ⟨u2, hupd, hchat2, huser2, hkey2, _, _, _, hexp2, hlc2, hnd2,
          hself2⟩ := updateSession_wf store1 s arg JVal.jsNull now hnd1
            hself1 hmem hexp
        simp only [hupd]
        by_cases hcomp : isSessionComplete u2
        · obtain ⟨hz, hndD, hselfD, hleD⟩ := setThenDelete_wf store1 s u2 now
            c u hnd1 hself1 hmem hlive hcnt1 hkey2 hchat2 huser2 hexp2
          simp only [hcomp, if_true]
          exact ⟨hndD, hselfD, hleD, fun _ => hz, by simp,
            fun h => by rcases h with h | h <;> simp at h⟩
        · simp only [hcomp, if_false]
          exact ⟨hnd2, hself2, fun c' w' => le_of_eq (hlc2 c' w'),
            fun hc => by simp at hc, by simp, fun _ => by simp⟩
    · rw [if_neg hskip]
      exact sessionRegularInput_wf s store1 msg now c u hnd1 hself1 hmem
        hlive hcnt1

/-- `handleResponse` preserves well-formedness, never increases any pair's
live count, and leaves the caller's pair without a live session whenever it
reports `noSession` or `complete`; `skipped`/`continued` results carry the
session. -/
theorem handleResponse_wf (msg c u : String) (now : Nat)
    (store : List (String × Session)) (hwf : StoreWF store now) :
    StoreWF (handleResponse msg c u now store).2 now
    ∧ (∀ c' w', liveCount (handleResponse msg c u now store).2 now c' w' ≤
        liveCount store now c' w')
    ∧ ((handleResponse msg c u now store).1.action = SessionAction.noSession →
        liveCount (handleResponse msg c u now store).2 now c u = 0)
    ∧ ((handleResponse msg c u now store).1.action = SessionAction.complete →
        liveCount (handleResponse msg c u now store).2 now c u = 0)
    ∧ ((handleResponse msg c u now store).1.action = SessionAction.skipped ∨
        (handleResponse msg c u now store).1.action =
          SessionAction.continued →
        (handleResponse msg c u now store).1.session.isSome) := by
  obtain ⟨hnd, hself, hcnt⟩ := hwf
  have hpair : getActiveSession store c u now =
      ((getActiveSession store c u now).1,
        (getActiveSession store c u now).2) := rfl
  have hsub := getActiveSession_sublist store c u now
  have hnd1 : ((getActiveSession store c u now).2.map Prod.fst).Nodup :=
    List.Nodup.sublist (List.Sublist.map Prod.fst hsub) hnd
  have hself1 : ∀ kv ∈ (getActiveSession store c u now).2, kv.2.key = kv.1 :=
    fun kv hm => hself kv (hsub.subset hm)
  have hle1 : ∀ c' w',
      liveCount (getActiveSession store c u now).2 now c' w' ≤
        liveCount store now c' w' :=
    fun c' w' => liveCount_sublist _ _ _ _ _ hsub
  have hcnt1 : ∀ c' w',
      liveCount (getActiveSession store c u now).2 now c' w' ≤ 1 :=
    fun c' w' => le_trans (hle1 c' w') (hcnt c' w')
  cases hopt : (getActiveSession store c u now).1 with
  | none =>
    have hred : handleResponse msg c u now store =
        ({ action := .noSession }, (getActiveSession store c u now).2) := by
      rw [handleResponse, hpair, hopt]
    rw [hred]
    exact ⟨⟨hnd1, hself1, hcnt1⟩, hle1,
      fun _ => getActiveSession_none store c u now hopt,
      fun hc => by simp at hc,
      fun h => by rcases h with h | h <;> simp at h⟩
  | some s =>
    obtain ⟨hlive_s, k1, hk1mem⟩ := getActiveSession_some store c u now s hopt
    have hk1 : s.key = k1 := hself1 (k1, s) hk1mem
    have hmem_s : (s.key, s) ∈ (getActiveSession store c u now).2 := by
      rw [hk1]; exact hk1mem
    have hred : handleResponse msg c u now store =
        handleResponseBody s (getActiveSession store c u now).2 msg now := by
      rw [handleResponse, hpair, hopt]
    rw [hred]
    obtain ⟨h1, h2, h3, h4, h5, h6⟩ := handleResponseBody_wf s
      (getActiveSession store c u now).2 msg now c u hnd1 hself1 hmem_s
      hlive_s hcnt1
    exact ⟨⟨h1, h2, fun c' w' => le_trans (h3 c' w') (hcnt1 c' w')⟩,
      fun c' w' => le_trans (h3 c' w') (hle1 c' w'),
      fun hc => absurd hc h5, h4, h6⟩

/-- The handler path never touches the session store. -/
theorem runHandler_snd (env : RouterEnv) (ctx : RouterContext) (p : Parsed)
    (store : List (String × Session)) :
    (runHandler env ctx p store).2 = store := by
  unfold runHandler
  split
  · rfl
  · split <;> rfl

/-- If any required argument is missing, some syntax declares a required
parameter (the condition `wouldTriggerInteractive` scans for). -/
theorem getMissingArgs_hasRequired (args : List (String × JVal))
    (cd : CommandDef) (i : Nat)
    (h : ¬ (getMissingArgs args cd i).isEmpty = true) :
    (effectiveSyntaxes cd).any (fun sx =>
      sx.parameters.any (fun pd => !pd.2.optional && pd.2.default.isNone))
      = true := by
  unfold getMissingArgs at h
  cases hsx : (effectiveSyntaxes cd).get? i with
  | none => rw [hsx] at h; simp at h
  | some sx =>
    rw [hsx] at h
    simp only at h
    rw [List.any_eq_true]
    refine ⟨sx, List.get?_mem hsx, ?_⟩
    rw [List.any_eq_true]
    have hne : sx.parameters.filterMap (fun pd =>
        if (alistGet args pd.1).isNone && !pd.2.optional && pd.2.default.isNone
        then some pd.1 else none) ≠ [] := by
      intro he
      apply h
      rw [he]
      rfl
    have hex : ¬ ∀ pd ∈ sx.parameters, (fun pd =>
        if (alistGet args pd.1).isNone && !pd.2.optional && pd.2.default.isNone
        then some pd.1 else none) pd = none := by
      intro hall
      exact hne (List.filterMap_eq_nil_iff.mpr hall)
    push_neg at hex
    obtain ⟨pd, hpdmem, hpdne⟩ := hex
    refine ⟨pd, hpdmem, ?_⟩
    by_cases hc : ((alistGet args pd.1).isNone && !pd.2.optional &&
        pd.2.default.isNone) = true
    · simp only [Bool.and_eq_true] at hc
      simp [hc.1.2, hc.2]
    · exfalso
      apply hpdne
      simp only [hc]
      simp

/-- `createSession` on a pair with no live session: the store stays
well-formed, the pair gets (at most) its one new live session, and no other
pair gains sessions. -/
theorem createSession_wf (store : List (String × Session)) (now : Nat)
    (ctx : RouterContext) (p : Parsed) (missing : List String)
    (hwf : StoreWF store now)
    (h0 : liveCount store now ctx.chatId ctx.userId = 0) :
    StoreWF (createSession store now ctx p missing).2 now
    ∧ (∀ c' w', ¬(c' = ctx.chatId ∧ w' = ctx.userId) →
        liveCount (createSession store now ctx p missing).2 now c' w' ≤
          liveCount store now c' w') := by
  obtain ⟨hnd, hself, hcnt⟩ := hwf
  unfold createSession
  simp only []
  set key := getSessionKey ctx.chatId ctx.userId p.service p.command with hkey
  set sess : Session :=
    { key := key, chatId := ctx.chatId, userId := ctx.userId,
      service := if strTruthy p.service then p.service else none,
      command := p.command, stype := p.ptype,
      syntaxIndex := p.syntaxIndex.getD 0, collectedArgs := p.args,
      pendingArgs := missing, currentArgIndex := 0,
      expiresAt := now + sessionTimeout } with hsess
  have hexp : ¬ now + sessionTimeout < now := by omega
  have hlive_self : sessionLive now ctx.chatId ctx.userId sess = true := by
    simp [hsess, sessionLive, hexp]
  have hlive_other : ∀ c' w', ¬(c' = ctx.chatId ∧ w' = ctx.userId) →
      sessionLive now c' w' sess = false := by
    intro c' w' hne
    simp only [hsess, sessionLive]
    rcases not_and_or.mp hne with hx | hx
    · have hx' : ¬ (ctx.chatId = c') := fun he => hx he.symm
      simp [hx']
    · have hx' : ¬ (ctx.userId = w') := fun he => hx he.symm
      simp [hx']
  have hndS : ((alistSet store key sess).map Prod.fst).Nodup :=
    alistSet_keys_nodup store key sess hnd
  have hselfS : ∀ kv ∈ alistSet store key sess, kv.2.key = kv.1 := by
    intro kv hkv
    rcases mem_alistSet store key sess kv hkv with hm | hm
    · exact hself kv hm
    · rw [hm]
  have hcount : ∀ c' w',
      liveCount (alistSet store key sess) now c' w' ≤
        liveCount store now c' w' +
          (if sessionLive now c' w' sess then 1 else 0) := by
    intro c' w'
    cases hget : alistGet store key with
    | none => rw [liveCount_alistSet_append store key sess now c' w' hget]
    | some w =>
      have := liveCount_alistSet_replace store key sess w now c' w' hget
      omega
  refine ⟨⟨hndS, hselfS, ?_⟩, ?_⟩
  · intro c' w'
    by_cases hpair : c' = ctx.chatId ∧ w' = ctx.userId
    · obtain ⟨h1, h2⟩ := hpair
      subst h1; subst h2
      have hthis := hcount ctx.chatId ctx.userId
      rw [hlive_self] at hthis
      simp at hthis
      omega
    · have := hcount c' w'
      rw [hlive_other c' w' hpair] at this
      simp at this
      exact le_trans this (hcnt c' w')
  · intro c' w' hpair
    have := hcount c' w'
    rw [hlive_other c' w' hpair] at this
    simpa using this

/-- Case characterisation of `executeCommand`: either the store is returned
unchanged (with some reply option), or a session was created, in which case
the command definition exists, the command is interactive, has no raw
arguments, and has missing required arguments. -/
theorem executeCommand_eq (env : RouterEnv) (now : Nat) (ctx : RouterContext)
    (p : Parsed) (store : List (String × Session)) :
    (∃ r, executeCommand env now ctx p store = (r, store)) ∨
    (∃ cd, env.getCommandDefinition (scopeOf p) p.command = some cd
      ∧ p.interactive = true
      ∧ (match p.rawArgs with
         | none => true
         | some r => jsTrim r = "") = true
      ∧ ¬ (getMissingArgs p.args cd (p.syntaxIndex.getD 0)).isEmpty = true
      ∧ (executeCommand env now ctx p store).1.isSome = true
      ∧ (executeCommand env now ctx p store).2 =
          (createSession store now ctx p
            (getMissingArgs p.args cd (p.syntaxIndex.getD 0))).2) := by
  have hrun : runHandler env ctx p store =
      ((runHandler env ctx p store).1, store) :=
    Prod.ext rfl (runHandler_snd env ctx p store)
  by_cases hcond : (p.interactive &&
      match p.rawArgs with
      | none => true
      | some r => jsTrim r = "") = true
  · cases hcd : env.getCommandDefinition (scopeOf p) p.command with
    | none =>
      have hstep : executeCommand env now ctx p store =
          runHandler env ctx p store := by
        unfold executeCommand
        simp only []
        rw [if_pos hcond, hcd]
      exact Or.inl ⟨(runHandler env ctx p store).1, by rw [hstep, hrun]⟩
    | some cd =>
      by_cases hmiss :
          (getMissingArgs p.args cd (p.syntaxIndex.getD 0)).isEmpty = true
      · have hstep : executeCommand env now ctx p store =
            runHandler env ctx p store := by
          unfold executeCommand
          simp only []
          rw [if_pos hcond, hcd]
          show (if (getMissingArgs p.args cd (p.syntaxIndex.getD 0)).isEmpty =
              true then runHandler env ctx p store else _) =
            runHandler env ctx p store
          rw [if_pos hmiss]
        exact Or.inl ⟨(runHandler env ctx p store).1, by rw [hstep, hrun]⟩
      · have hfst : (executeCommand env now ctx p store).1.isSome = true := by
          unfold executeCommand
          simp only []
          rw [if_pos hcond, hcd]
          show (if (getMissingArgs p.args cd (p.syntaxIndex.getD 0)).isEmpty =
              true then runHandler env ctx p store else _).1.isSome = true
          rw [if_neg hmiss]
          rfl
        have hsnd : (executeCommand env now ctx p store).2 =
            (createSession store now ctx p
              (getMissingArgs p.args cd (p.syntaxIndex.getD 0))).2 := by
          unfold executeCommand
          simp only []
          rw [if_pos hcond, hcd]
          show (if (getMissingArgs p.args cd (p.syntaxIndex.getD 0)).isEmpty =
              true then runHandler env ctx p store else _).2 = _
          rw [if_neg hmiss]
        rcases Bool.and_eq_true .. ▸ hcond with ⟨hint, hraw⟩
        exact Or.inr ⟨cd, rfl, hint, hraw, hmiss, hfst, hsnd⟩
  · have hstep : executeCommand env now ctx p store =
        runHandler env ctx p store := by
      unfold executeCommand
      simp only []
      rw [if_neg hcond]
    exact Or.inl ⟨(runHandler env ctx p store).1, by rw [hstep, hrun]⟩

/-- `executeCommand` leaves the store unchanged whenever it returns no
reply. -/
theorem executeCommand_none_unchanged (env : RouterEnv) (now : Nat)
    (ctx : RouterContext) (p : Parsed) (store : List (String × Session))
    (h : (executeCommand env now ctx p store).1 = none) :
    (executeCommand env now ctx p store).2 = store := by
  rcases executeCommand_eq env now ctx p store with ⟨r, hr⟩ |
    ⟨cd, _, _, _, _, hfst, hsnd⟩
  · rw [hr]
  · rw [h] at hfst
    simp at hfst

/-- `executeCommand` on a non-erroring command that would not trigger
interactive mode leaves the store unchanged. -/
theorem executeCommand_unchanged (env : RouterEnv) (now : Nat)
    (ctx : RouterContext) (p : Parsed) (store : List (String × Session))
    (hperr : p.perror = none)
    (hwti : wouldTriggerInteractive env p = false) :
    (executeCommand env now ctx p store).2 = store := by
  rcases executeCommand_eq env now ctx p store with ⟨r, hr⟩ |
    ⟨cd, hcd, hint, hraw, hmiss, hfst, hsnd⟩
  · rw [hr]
  · exfalso
    have : wouldTriggerInteractive env p = true := by
      unfold wouldTriggerInteractive
      rw [hperr]
      simp only [Option.isSome_none, Bool.false_or]
      rw [if_neg (by simp [hint])]
      have hraw2 : ¬ (match p.rawArgs with
          | some r => r ≠ "" && jsTrim r ≠ ""
          | none => false) = true := by
        cases hrwa : p.rawArgs with
        | none => simp
        | some r =>
          rw [hrwa] at hraw
          simp only at hraw
          simp [hraw]
      rw [if_neg hraw2, hcd]
      exact getMissingArgs_hasRequired p.args cd (p.syntaxIndex.getD 0) hmiss
    rw [hwti] at this
    cases this

/-- `executeCommand` on a pair with no live session: well-formedness is
preserved and other pairs never gain sessions. -/
theorem executeCommand_wf (env : RouterEnv) (now : Nat) (ctx : RouterContext)
    (p : Parsed) (store : List (String × Session))
    (hwf : StoreWF store now)
    (h0 : liveCount store now ctx.chatId ctx.userId = 0) :
    StoreWF (executeCommand env now ctx p store).2 now
    ∧ (∀ c' w', ¬(c' = ctx.chatId ∧ w' = ctx.userId) →
        liveCount (executeCommand env now ctx p store).2 now c' w' ≤
          liveCount store now c' w') := by
  rcases executeCommand_eq env now ctx p store with ⟨r, hr⟩ |
    ⟨cd, _, _, _, _, hfst, hsnd⟩
  · rw [hr]
    exact ⟨hwf, fun c' w' _ => le_refl _⟩
  · rw [hsnd]
    exact createSession_wf store now ctx p _ hwf h0

/-- `applySyntaxIndex` only rewrites `syntaxIndex` and `args`; every field
`wouldTriggerInteractive` inspects is unchanged. -/
theorem applySyntaxIndex_fields (env : RouterEnv) (perm : PermResult)
    (p : Parsed) :
    (applySyntaxIndex env perm p).perror = p.perror
    ∧ (applySyntaxIndex env perm p).interactive = p.interactive
    ∧ (applySyntaxIndex env perm p).rawArgs = p.rawArgs
    ∧ (applySyntaxIndex env perm p).ptype = p.ptype
    ∧ (applySyntaxIndex env perm p).service = p.service
    ∧ (applySyntaxIndex env perm p).command = p.command := by
  unfold applySyntaxIndex
  cases perm.syntaxIndex with
  | none => exact ⟨rfl, rfl, rfl, rfl, rfl, rfl⟩
  | some i =>
    by_cases h : (strTruthy p.rawArgs && decide (0 < i)) = true
    · simp [h]
    · simp [h]

/-- Re-binding the arguments does not change whether a command would trigger
interactive mode. -/
theorem wouldTriggerInteractive_applySyntaxIndex (env : RouterEnv)
    (perm : PermResult) (p : Parsed) :
    wouldTriggerInteractive env (applySyntaxIndex env perm p) =
      wouldTriggerInteractive env p := by
  obtain ⟨h1, h2, h3, h4, h5, h6⟩ := applySyntaxIndex_fields env perm p
  unfold wouldTriggerInteractive scopeOf
  rw [h1, h2, h3, h4, h5, h6]

/-- `handleSessionResponse` preserves well-formedness; when it yields no
reply (so the router goes on to parse), the caller's pair has no live
session. -/
theorem handleSessionResponse_wf (env : RouterEnv) (now : Nat)
    (ctx : RouterContext) (store : List (String × Session))
    (hwf : StoreWF store now) :
    StoreWF (handleSessionResponse env now ctx store).2 now
    ∧ ((handleSessionResponse env now ctx store).1 = none →
        liveCount (handleSessionResponse env now ctx store).2 now
          ctx.chatId ctx.userId = 0) := by
  obtain ⟨hwfr, hler, hnos, hcompl, hsome⟩ :=
    handleResponse_wf ctx.body ctx.chatId ctx.userId now store hwf
  unfold handleSessionResponse
  simp only []
  cases ha : (handleResponse ctx.body ctx.chatId ctx.userId now store).1.action
    with
  | noSession => exact ⟨hwfr, fun _ => hnos ha⟩
  | cancelled => exact ⟨hwfr, fun h => by simp at h⟩
  | skipped =>
    cases hs : (handleResponse ctx.body ctx.chatId ctx.userId now store).1.session
      with
    | some s => exact ⟨hwfr, fun h => by simp at h⟩
    | none =>
      refine ⟨hwfr, fun _ => ?_⟩
      have := hsome (Or.inl ha)
      rw [hs] at this
      simp at this
  | continued =>
    cases hs : (handleResponse ctx.body ctx.chatId ctx.userId now store).1.session
      with
    | some s => exact ⟨hwfr, fun h => by simp at h⟩
    | none =>
      refine ⟨hwfr, fun _ => ?_⟩
      have := hsome (Or.inr ha)
      rw [hs] at this
      simp at this
  | complete =>
    cases hs : (handleResponse ctx.body ctx.chatId ctx.userId now store).1.session
      with
    | some s =>
      have h0 : liveCount (handleResponse ctx.body ctx.chatId ctx.userId now
          store).2 now ctx.chatId ctx.userId = 0 := hcompl ha
      obtain ⟨hwf2, hother⟩ := executeCommand_wf env now ctx
        { ptype := s.stype, service := s.service, command := s.command,
          args := s.collectedArgs, syntaxIndex := some s.syntaxIndex }
        (handleResponse ctx.body ctx.chatId ctx.userId now store).2 hwfr h0
      refine ⟨hwf2, fun hnone => ?_⟩
      rw [executeCommand_none_unchanged env now ctx _ _ hnone]
      exact h0
    | none => exact ⟨hwfr, fun _ => hcompl ha⟩

/-- `executeSingleCommand` preserves well-formedness when the caller's pair
has no live session. -/
theorem executeSingleCommand_wf (env : RouterEnv) (now : Nat)
    (ctx : RouterContext) (p : Parsed) (store : List (String × Session))
    (hwf : StoreWF store now)
    (h0 : liveCount store now ctx.chatId ctx.userId = 0) :
    StoreWF (executeSingleCommand env now ctx p store).2 now := by
  unfold executeSingleCommand
  split
  · split
    · exact hwf
    · exact hwf
  · simp only []
    split
    · exact hwf
    · exact (executeCommand_wf env now ctx _ store hwf h0).1

/-- Dropping the head of a list cannot increase the filtered length. -/
theorem filter_length_cons_le {α : Type} (f : α → Bool) (p : α)
    (l : List α) : (l.filter f).length ≤ ((p :: l).filter f).length := by
  by_cases h : f p <;> simp [List.filter_cons, h]

/-- The multi-command loop preserves well-formedness as long as the pair's
live-session count plus the number of remaining commands that would trigger
interactive mode stays within one (the guard `executeMultipleCommands`
enforces). -/
theorem multiLoop_wf (env : RouterEnv) (now : Nat) (ctx : RouterContext) :
    ∀ (ps : List Parsed) (store : List (String × Session))
      (responses : List MultiResp),
    StoreWF store now →
    liveCount store now ctx.chatId ctx.userId +
      (ps.filter (fun p => wouldTriggerInteractive env p)).length ≤ 1 →
    StoreWF (multiLoop env now ctx ps store responses).1 now := by
  intro ps
  induction ps with
  | nil =>
    intro store responses hwf _
    exact hwf
  | cons p rest ih =>
    intro store responses hwf hbud
    have hdrop := filter_length_cons_le
      (fun p => wouldTriggerInteractive env p) p rest
    rw [multiLoop]
    split
    · exact ih store responses hwf (by omega)
    · split
      · exact ih store _ hwf (by omega)
      next hperr =>
        simp only []
        split
        · exact ih store _ hwf (by omega)
        next hallow =>
          by_cases hwti : wouldTriggerInteractive env p = true
          · have hfc : ((p :: rest).filter
                (fun p => wouldTriggerInteractive env p)).length =
                (rest.filter (fun p => wouldTriggerInteractive env p)).length
                  + 1 := by
              simp [List.filter_cons, hwti]
            have h0 : liveCount store now ctx.chatId ctx.userId = 0 := by
              omega
            obtain ⟨hwf2, hother⟩ := executeCommand_wf env now ctx
              (applySyntaxIndex env (env.canExecutePerm ctx p) p) store hwf h0
            have hbud2 : liveCount (executeCommand env now ctx
                (applySyntaxIndex env (env.canExecutePerm ctx p) p) store).2
                now ctx.chatId ctx.userId +
                (rest.filter (fun p => wouldTriggerInteractive env p)).length
                ≤ 1 := by
              have := hwf2.2.2 ctx.chatId ctx.userId
              omega
            split
            · exact ih _ _ hwf2 hbud2
            · exact ih _ _ hwf2 hbud2
          · have hwti' : wouldTriggerInteractive env
                (applySyntaxIndex env (env.canExecutePerm ctx p) p) = false := by
              rw [wouldTriggerInteractive_applySyntaxIndex]
              simpa using hwti
            have hperr' : (applySyntaxIndex env
                (env.canExecutePerm ctx p) p).perror = none := by
              rw [(applySyntaxIndex_fields env (env.canExecutePerm ctx p) p).1]
              exact hperr
            have hunch := executeCommand_unchanged env now ctx
              (applySyntaxIndex env (env.canExecutePerm ctx p) p) store
              hperr' hwti'
            have hfc : ((p :: rest).filter
                (fun p => wouldTriggerInteractive env p)).length =
                (rest.filter (fun p => wouldTriggerInteractive env p)).length
                := by
              simp [List.filter_cons, hwti]
            split
            · rw [hunch]
              exact ih store _ hwf (by omega)
            · rw [hunch]
              exact ih store _ hwf (by omega)

/-- `executeMultipleCommands` preserves well-formedness when the caller's
pair has no live session. -/
theorem executeMultipleCommands_wf (env : RouterEnv) (now : Nat)
    (ctx : RouterContext) (ps : List Parsed)
    (store : List (String × Session))
    (hwf : StoreWF store now)
    (h0 : liveCount store now ctx.chatId ctx.userId = 0) :
    StoreWF (executeMultipleCommands env now ctx ps store).2 now := by
  unfold executeMultipleCommands
  by_cases hguard : 1 <
      (ps.filter (fun p => wouldTriggerInteractive env p)).length
  · rw [if_pos hguard]
    exact hwf
  · rw [if_neg hguard]
    exact multiLoop_wf env now ctx ps store [] hwf (by omega)

/-- C9: session exclusivity through the router.  If at most one live session
exists per `(chatId, userId)` (with the store's bookkeeping invariants),
then after routing any inbound message — whatever the session manager does
with it and whatever the parser returns — at most one live session per pair
still exists: the session check precedes all parsing, and `createSession` is
only ever reached with no live session for the pair. -/
theorem C9_route_session_exclusive (env : RouterEnv) (now : Nat)
    (ctx : RouterContext) (po : ParseOutcome)
    (store : List (String × Session)) (hwf : StoreWF store now) :
    StoreWF (route env now ctx po store).2 now := by
  unfold route
  simp only []
  obtain ⟨hwf1, h01⟩ := handleSessionResponse_wf env now ctx store hwf
  cases hsr : (handleSessionResponse env now ctx store).1 with
  | some r => exact hwf1
  | none =>
    have h0 := h01 hsr
    cases po with
    | noCommand => exact hwf1
    | single p => exact executeSingleCommand_wf env now ctx p _ hwf1 h0
    | multiple ps => exact executeMultipleCommands_wf env now ctx ps _ hwf1 h0

/-- C9 witness: routing a message through an empty, trivially well-formed
session store keeps the store well-formed. -/
theorem C9_route_session_exclusive_witness :
    StoreWF (route trivialRouterEnv 0
      { chatId := "g1@g.us", userId := "u1@s.whatsapp.net", body := ".ping" }
      (ParseOutcome.single { ptype := "builtin", command := "ping" }) []).2
      0 :=
  C9_route_session_exclusive trivialRouterEnv 0
    { chatId := "g1@g.us", userId := "u1@s.whatsapp.net", body := ".ping" }
    (ParseOutcome.single { ptype := "builtin", command := "ping" }) []
    ⟨by simp, by simp, fun c u => by simp [liveCount]⟩

/-- C8 witness: the characterisation at a concrete wildcard entry. -/
theorem C8_checkBlacklist_match_rule_witness :
    checkBlacklist [{ userId := "u", groups := some ["*"] }] "u"
        (some "g1@g.us") (some "exp") (some "add") = true ↔
      ∃ e ∈ [({ userId := "u", groups := some ["*"] } : BlacklistEntry)],
        specEntryMatches "u" "g1@g.us" "exp" "add" e :=
  C8_checkBlacklist_match_rule [{ userId := "u", groups := some ["*"] }]
    "u" "g1@g.us" "exp" "add" (by decide) (by decide) (by decide)

end WABot

